import Mathlib

/-!
Verification of the rental-quoting core of `rental-ai-copilot`.

This file is a shallow embedding, in Lean 4, of the pure algorithmic core of
the repository: the text normalizer, line-item segmenter, SKU matcher,
duration extractor, location resolver, pricing engine, the quote-loop
guardrail and the feedback (goodwill-discount) step.  Each definition is a
direct translation of the corresponding Python function.

Modeling conventions (stated once here):
* Strings are Lean `String`s; the scanners work on `List Char`.
* Python character classes are modeled over their ASCII meaning
  (`\d` = '0'..'9', `\w` = ASCII alphanumeric or '_', `\s` = ASCII
  whitespace), plus the two curly-quote characters that appear literally in
  the source regexes.  All catalog data and all inputs exercised by the
  theorems are ASCII (plus those curly quotes).
* `re.sub` is modeled by a left-to-right scanner that, at each position,
  attempts the (effectively backtracking-free) pattern, replaces the
  leftmost match and continues after it — exactly Python's semantics,
  since in each of the six substitution patterns the greedy `\d+` / `\s*`
  runs cannot backtrack usefully (the character after a shortened run can
  never match the next pattern token).
* Monetary arithmetic (Python floats) is modeled exactly over `ℚ`, with
  `round(x, 2)` modeled as round-half-to-even (Python's rounding mode).
  Concrete monetary witnesses use binary-exact decimals so that the float
  computation and the exact computation coincide.
-/

/- Batteries marks the `Rat` arithmetic operations `@[irreducible]`, which
blocks `decide`-style evaluation; restore the default reducibility so that
concrete rational computations reduce. -/
set_option allowUnsafeReducibility true
attribute [semireducible] Rat.add Rat.mul Rat.sub Rat.inv

namespace RentalAI

/-! ### Character-class primitives (ASCII model of Python's regex classes) -/

/-- Python `\s` (ASCII range): space, tab, newline, CR, vertical tab, form feed. -/
def isWsC (c : Char) : Bool :=
  c = ' ' || c = '\t' || c = '\n' || c = '\x0d' || c = '\x0b' || c = '\x0c'

/-- Python `\d` (ASCII range). -/
def isDigitC (c : Char) : Bool :=
  '0' ≤ c && c ≤ '9'

/-- Python `\w` (ASCII range): letters, digits, underscore. -/
def isWordC (c : Char) : Bool :=
  ('a' ≤ c && c ≤ 'z') || ('A' ≤ c && c ≤ 'Z') || isDigitC c || c = '_'

/-- Model of Python `str.lower()` for ASCII characters. -/
def lowerC (c : Char) : Char :=
  if 'A' ≤ c ∧ c ≤ 'Z' then Char.ofNat (c.toNat + 32) else c

/-- `str.strip()` from the left (ASCII whitespace). -/
def lstripWs (l : List Char) : List Char := l.dropWhile isWsC

/-- `str.strip()` from the right (ASCII whitespace). -/
def rstripWs (l : List Char) : List Char := (l.reverse.dropWhile isWsC).reverse

/-- Model of Python `str.strip()`. -/
def stripWs (l : List Char) : List Char := rstripWs (lstripWs l)

/-- Word boundary `\b` immediately after a word character: the next char is
absent or a non-word char. -/
def wbAfter (l : List Char) : Bool :=
  match l with
  | [] => true
  | c :: _ => !isWordC c

/-! ### Generic `re.sub` scanner for the six `normalize_text` patterns

All six patterns of `normalize_text` have the shape `(\d+)REST` with
replacement `\1 inch` / `\1 foot`.  The scanner walks left to right; at a
digit it takes the maximal digit run, hands the remainder to `check` (the
model of `REST`, returning how many characters `REST` consumed), and on
success emits the digits followed by `rep`, resuming after the match —
Python's leftmost, non-overlapping `re.sub` semantics.

To stay structurally recursive (hence kernel-computable) the scanner carries
a skip counter: after emitting a replacement it skips over the remainder of
the matched region.  `scanSub_cons_match` below recovers the natural
recursion equation. -/

def scanGo (check : List Char → Option Nat) (rep : List Char) :
    Nat → List Char → List Char
  | _, [] => []
  | n + 1, _ :: cs => scanGo check rep n cs
  | 0, c :: cs =>
    if isDigitC c then
      match check ((c :: cs).dropWhile isDigitC) with
      | some k =>
        ((c :: cs).takeWhile isDigitC ++ rep) ++
          scanGo check rep (((c :: cs).takeWhile isDigitC).length + k - 1) cs
      | none => c :: scanGo check rep 0 cs
    else c :: scanGo check rep 0 cs

def scanSub (check : List Char → Option Nat) (rep : List Char)
    (l : List Char) : List Char :=
  scanGo check rep 0 l

/-- `REST` of pattern `(\d+)["”“]`. -/
def chkQuote : List Char → Option Nat
  | c :: _ => if c = '"' ∨ c = '”' ∨ c = '“' then some 1 else none
  | [] => none

/-- `REST` of pattern `(\d+)-inch`. -/
def chkDashInch (l : List Char) : Option Nat :=
  if ['-', 'i', 'n', 'c', 'h'].isPrefixOf l then some 5 else none

/-- `REST` of pattern `(\d+)in\b`. -/
def chkInB (l : List Char) : Option Nat :=
  if ['i', 'n'].isPrefixOf l ∧ wbAfter (l.drop 2) then some 2 else none

/-- `REST` of pattern `(\d+)-foot`. -/
def chkDashFoot (l : List Char) : Option Nat :=
  if ['-', 'f', 'o', 'o', 't'].isPrefixOf l then some 5 else none

/-- `REST` of pattern `(\d+)ft\b`. -/
def chkFtB (l : List Char) : Option Nat :=
  if ['f', 't'].isPrefixOf l ∧ wbAfter (l.drop 2) then some 2 else none

/-- `REST` of pattern `(\d+)\s*ft\b`. -/
def chkWsFt (l : List Char) : Option Nat :=
  let w := l.takeWhile isWsC
  if ['f', 't'].isPrefixOf (l.drop w.length) ∧ wbAfter (l.drop (w.length + 2)) then
    some (w.length + 2)
  else none

def repInch : List Char := [' ', 'i', 'n', 'c', 'h']
def repFoot : List Char := [' ', 'f', 'o', 'o', 't']

/-- Model of `re.sub(r'\s+', ' ', text)`: each maximal whitespace run becomes
a single space.  The Boolean state records whether the scanner is inside a
whitespace run (whose single `' '` has already been emitted). -/
def collapseGo : Bool → List Char → List Char
  | _, [] => []
  | inWs, c :: cs =>
    if isWsC c then
      (if inWs then [] else [' ']) ++ collapseGo true cs
    else c :: collapseGo false cs

def collapseWs (l : List Char) : List Char := collapseGo false l

/-- `normalize_text` (item_parser.py): lowercase+strip, the six size/unit
substitutions in source order, then whitespace collapse and strip. -/
def normChars (l : List Char) : List Char :=
  let t0 := stripWs (l.map lowerC)
  let t1 := scanSub chkQuote repInch t0
  let t2 := scanSub chkDashInch repInch t1
  let t3 := scanSub chkInB repInch t2
  let t4 := scanSub chkDashFoot repFoot t3
  let t5 := scanSub chkFtB repFoot t4
  let t6 := scanSub chkWsFt repFoot t5
  stripWs (collapseWs t6)

/-- `normalize_text` on `String`s. -/
def normalize_text (s : String) : String := ⟨normChars s.data⟩

/-! ### Static catalogs (item_parser.py) -/

/-- `ITEM_SYNONYMS`: the synonym → SKU catalog, in source (dict-insertion)
order.  Values are lists of SKUs, as in the source (always singletons). -/
def ITEM_SYNONYMS : List (String × List String) := [
  ("white folding chair", ["CHAIR-FOLD-WHT"]),
  ("white folding chairs", ["CHAIR-FOLD-WHT"]),
  ("white plastic chair", ["CHAIR-FOLD-WHT"]),
  ("white plastic chairs", ["CHAIR-FOLD-WHT"]),
  ("folding chair white", ["CHAIR-FOLD-WHT"]),
  ("folding chairs white", ["CHAIR-FOLD-WHT"]),
  ("plastic folding chair", ["CHAIR-FOLD-WHT"]),
  ("plastic folding chairs", ["CHAIR-FOLD-WHT"]),
  ("folding chair", ["CHAIR-FOLD-WHT"]),
  ("folding chairs", ["CHAIR-FOLD-WHT"]),
  ("white chair", ["CHAIR-FOLD-WHT"]),
  ("white chairs", ["CHAIR-FOLD-WHT"]),
  ("plastic chair", ["CHAIR-FOLD-WHT"]),
  ("plastic chairs", ["CHAIR-FOLD-WHT"]),
  ("chair", ["CHAIR-FOLD-WHT"]),
  ("chairs", ["CHAIR-FOLD-WHT"]),
  ("chiavari chair", ["CHAIR-CHIAVARI"]),
  ("chiavari chairs", ["CHAIR-CHIAVARI"]),
  ("chiavari", ["CHAIR-CHIAVARI"]),
  ("gold chair", ["CHAIR-CHIAVARI"]),
  ("gold chairs", ["CHAIR-CHIAVARI"]),
  ("60 inch round table", ["TABLE-60RND"]),
  ("60 inch round tables", ["TABLE-60RND"]),
  ("60-inch round table", ["TABLE-60RND"]),
  ("60-inch round tables", ["TABLE-60RND"]),
  ("60in round table", ["TABLE-60RND"]),
  ("60in round tables", ["TABLE-60RND"]),
  ("60\" round table", ["TABLE-60RND"]),
  ("60\" round tables", ["TABLE-60RND"]),
  ("60 round table", ["TABLE-60RND"]),
  ("60 round tables", ["TABLE-60RND"]),
  ("60-inch table", ["TABLE-60RND"]),
  ("60-inch tables", ["TABLE-60RND"]),
  ("60 inch table", ["TABLE-60RND"]),
  ("60 inch tables", ["TABLE-60RND"]),
  ("60in table", ["TABLE-60RND"]),
  ("60in tables", ["TABLE-60RND"]),
  ("60\" table", ["TABLE-60RND"]),
  ("60\" tables", ["TABLE-60RND"]),
  ("5 foot round table", ["TABLE-60RND"]),
  ("5 foot round tables", ["TABLE-60RND"]),
  ("5ft round table", ["TABLE-60RND"]),
  ("5ft round tables", ["TABLE-60RND"]),
  ("round table", ["TABLE-60RND"]),
  ("round tables", ["TABLE-60RND"]),
  ("8ft rectangular table", ["TABLE-8FT-RECT"]),
  ("8ft rectangular tables", ["TABLE-8FT-RECT"]),
  ("8 ft rectangular table", ["TABLE-8FT-RECT"]),
  ("8 ft rectangular tables", ["TABLE-8FT-RECT"]),
  ("8-foot rectangular table", ["TABLE-8FT-RECT"]),
  ("8-foot rectangular tables", ["TABLE-8FT-RECT"]),
  ("8 foot rectangular table", ["TABLE-8FT-RECT"]),
  ("8 foot rectangular tables", ["TABLE-8FT-RECT"]),
  ("8ft banquet table", ["TABLE-8FT-RECT"]),
  ("8ft banquet tables", ["TABLE-8FT-RECT"]),
  ("8ft table", ["TABLE-8FT-RECT"]),
  ("8ft tables", ["TABLE-8FT-RECT"]),
  ("8 ft table", ["TABLE-8FT-RECT"]),
  ("8 ft tables", ["TABLE-8FT-RECT"]),
  ("8-foot table", ["TABLE-8FT-RECT"]),
  ("8-foot tables", ["TABLE-8FT-RECT"]),
  ("8 foot table", ["TABLE-8FT-RECT"]),
  ("8 foot tables", ["TABLE-8FT-RECT"]),
  ("rectangular table", ["TABLE-8FT-RECT"]),
  ("rectangular tables", ["TABLE-8FT-RECT"]),
  ("banquet table", ["TABLE-8FT-RECT"]),
  ("banquet tables", ["TABLE-8FT-RECT"]),
  ("6ft rectangular table", ["TABLE-6FT-RECT"]),
  ("6ft rectangular tables", ["TABLE-6FT-RECT"]),
  ("6 ft rectangular table", ["TABLE-6FT-RECT"]),
  ("6 ft rectangular tables", ["TABLE-6FT-RECT"]),
  ("6-foot rectangular table", ["TABLE-6FT-RECT"]),
  ("6-foot rectangular tables", ["TABLE-6FT-RECT"]),
  ("6 foot rectangular table", ["TABLE-6FT-RECT"]),
  ("6 foot rectangular tables", ["TABLE-6FT-RECT"]),
  ("6ft table", ["TABLE-6FT-RECT"]),
  ("6ft tables", ["TABLE-6FT-RECT"]),
  ("6 ft table", ["TABLE-6FT-RECT"]),
  ("6 ft tables", ["TABLE-6FT-RECT"]),
  ("6-foot table", ["TABLE-6FT-RECT"]),
  ("6-foot tables", ["TABLE-6FT-RECT"]),
  ("6 foot table", ["TABLE-6FT-RECT"]),
  ("6 foot tables", ["TABLE-6FT-RECT"]),
  ("table", ["TABLE-8FT-RECT"]),
  ("tables", ["TABLE-8FT-RECT"]),
  ("white tablecloth", ["LINEN-120RND-WHT"]),
  ("white tablecloths", ["LINEN-120RND-WHT"]),
  ("white linen", ["LINEN-120RND-WHT"]),
  ("white linens", ["LINEN-120RND-WHT"]),
  ("tablecloth", ["LINEN-120RND-WHT"]),
  ("tablecloths", ["LINEN-120RND-WHT"]),
  ("linen", ["LINEN-120RND-WHT"]),
  ("linens", ["LINEN-120RND-WHT"]),
  ("black tablecloth", ["LINEN-120RND-BLK"]),
  ("black tablecloths", ["LINEN-120RND-BLK"]),
  ("black linen", ["LINEN-120RND-BLK"]),
  ("black linens", ["LINEN-120RND-BLK"]),
  ("10x10 tent", ["TENT-10x10"]),
  ("10x10 tents", ["TENT-10x10"]),
  ("10 x 10 tent", ["TENT-10x10"]),
  ("10 x 10 tents", ["TENT-10x10"]),
  ("pop up tent", ["TENT-10x10"]),
  ("pop up tents", ["TENT-10x10"]),
  ("popup tent", ["TENT-10x10"]),
  ("popup tents", ["TENT-10x10"]),
  ("canopy", ["TENT-10x10"]),
  ("canopies", ["TENT-10x10"]),
  ("20x20 tent", ["TENT-20x20"]),
  ("20x20 tents", ["TENT-20x20"]),
  ("20 x 20 tent", ["TENT-20x20"]),
  ("20 x 20 tents", ["TENT-20x20"]),
  ("frame tent", ["TENT-20x20"]),
  ("frame tents", ["TENT-20x20"]),
  ("40x60 tent", ["TENT-40x60"]),
  ("40x60 tents", ["TENT-40x60"]),
  ("40 x 60 tent", ["TENT-40x60"]),
  ("40 x 60 tents", ["TENT-40x60"]),
  ("pole tent", ["TENT-40x60"]),
  ("pole tents", ["TENT-40x60"]),
  ("large tent", ["TENT-40x60"]),
  ("large tents", ["TENT-40x60"]),
  ("tent", ["TENT-20x20"]),
  ("tents", ["TENT-20x20"]),
  ("stage platform", ["STAGE-4x8"]),
  ("stage platforms", ["STAGE-4x8"]),
  ("stage", ["STAGE-4x8"]),
  ("stages", ["STAGE-4x8"]),
  ("platform", ["STAGE-4x8"]),
  ("platforms", ["STAGE-4x8"]),
  ("professional pa system", ["SPEAKER-PA-PRO"]),
  ("professional pa systems", ["SPEAKER-PA-PRO"]),
  ("pro pa system", ["SPEAKER-PA-PRO"]),
  ("pro pa systems", ["SPEAKER-PA-PRO"]),
  ("professional speaker", ["SPEAKER-PA-PRO"]),
  ("professional speakers", ["SPEAKER-PA-PRO"]),
  ("pa system", ["SPEAKER-PA-PRO"]),
  ("pa systems", ["SPEAKER-PA-PRO"]),
  ("sound system", ["SPEAKER-PA-PRO"]),
  ("sound systems", ["SPEAKER-PA-PRO"]),
  ("audio system", ["SPEAKER-PA-PRO"]),
  ("audio systems", ["SPEAKER-PA-PRO"]),
  ("pa", ["SPEAKER-PA-PRO"]),
  ("speaker", ["SPEAKER-PA-BASIC"]),
  ("speakers", ["SPEAKER-PA-BASIC"]),
  ("wireless microphone", ["MIC-WIRELESS-HH"]),
  ("wireless microphones", ["MIC-WIRELESS-HH"]),
  ("wireless mic", ["MIC-WIRELESS-HH"]),
  ("wireless mics", ["MIC-WIRELESS-HH"]),
  ("handheld microphone", ["MIC-WIRELESS-HH"]),
  ("handheld microphones", ["MIC-WIRELESS-HH"]),
  ("handheld mic", ["MIC-WIRELESS-HH"]),
  ("handheld mics", ["MIC-WIRELESS-HH"]),
  ("microphone", ["MIC-WIRELESS-HH"]),
  ("microphones", ["MIC-WIRELESS-HH"]),
  ("mic", ["MIC-WIRELESS-HH"]),
  ("mics", ["MIC-WIRELESS-HH"]),
  ("audio mixer", ["MIXER-8CH"]),
  ("audio mixers", ["MIXER-8CH"]),
  ("mixer", ["MIXER-8CH"]),
  ("mixers", ["MIXER-8CH"]),
  ("led uplight", ["LIGHT-UPLIGHT-LED"]),
  ("led uplights", ["LIGHT-UPLIGHT-LED"]),
  ("uplight", ["LIGHT-UPLIGHT-LED"]),
  ("uplights", ["LIGHT-UPLIGHT-LED"]),
  ("led light", ["LIGHT-UPLIGHT-LED"]),
  ("led lights", ["LIGHT-UPLIGHT-LED"]),
  ("light", ["LIGHT-UPLIGHT-LED"]),
  ("lights", ["LIGHT-UPLIGHT-LED"]),
  ("4k projector", ["PROJECTOR-4K"]),
  ("4k projectors", ["PROJECTOR-4K"]),
  ("projector", ["PROJECTOR-4K"]),
  ("projectors", ["PROJECTOR-4K"]),
  ("projection screen", ["SCREEN-PROJ-120"]),
  ("projection screens", ["SCREEN-PROJ-120"]),
  ("screen", ["SCREEN-PROJ-120"]),
  ("screens", ["SCREEN-PROJ-120"]),
  ("19ft scissor lift", ["LIFT-SCISSOR-19"]),
  ("19ft scissor lifts", ["LIFT-SCISSOR-19"]),
  ("19 ft scissor lift", ["LIFT-SCISSOR-19"]),
  ("19 foot scissor lift", ["LIFT-SCISSOR-19"]),
  ("19ft lift", ["LIFT-SCISSOR-19"]),
  ("26ft scissor lift", ["LIFT-SCISSOR-26"]),
  ("26ft scissor lifts", ["LIFT-SCISSOR-26"]),
  ("26 ft scissor lift", ["LIFT-SCISSOR-26"]),
  ("26 foot scissor lift", ["LIFT-SCISSOR-26"]),
  ("26ft lift", ["LIFT-SCISSOR-26"]),
  ("scissor lift", ["LIFT-SCISSOR-19"]),
  ("scissor lifts", ["LIFT-SCISSOR-19"]),
  ("40ft boom lift", ["LIFT-BOOM-40"]),
  ("40ft boom lifts", ["LIFT-BOOM-40"]),
  ("boom lift", ["LIFT-BOOM-40"]),
  ("boom lifts", ["LIFT-BOOM-40"]),
  ("telescopic lift", ["LIFT-BOOM-40"]),
  ("telescopic lifts", ["LIFT-BOOM-40"]),
  ("lift", ["LIFT-SCISSOR-19"]),
  ("lifts", ["LIFT-SCISSOR-19"]),
  ("10kw diesel generator", ["GEN-10KW-DIESEL"]),
  ("10kw generator", ["GEN-10KW-DIESEL"]),
  ("diesel generator", ["GEN-10KW-DIESEL"]),
  ("diesel generators", ["GEN-10KW-DIESEL"]),
  ("5kw generator", ["GEN-5KW"]),
  ("portable generator", ["GEN-5KW"]),
  ("portable generators", ["GEN-5KW"]),
  ("generator", ["GEN-5KW"]),
  ("generators", ["GEN-5KW"]),
  ("gen", ["GEN-5KW"]),
  ("air compressor", ["COMPRESSOR-185CFM"]),
  ("air compressors", ["COMPRESSOR-185CFM"]),
  ("compressor", ["COMPRESSOR-185CFM"]),
  ("compressors", ["COMPRESSOR-185CFM"]),
  ("scaffolding", ["SCAFFOLD-5x5x7"]),
  ("scaffold", ["SCAFFOLD-5x5x7"]),
  ("scaffolds", ["SCAFFOLD-5x5x7"]),
  ("fork lift", ["FORKLIFT-5K"]),
  ("fork lifts", ["FORKLIFT-5K"]),
  ("forklift", ["FORKLIFT-5K"]),
  ("forklifts", ["FORKLIFT-5K"]),
  ("skid steer", ["SKIDSTEER-1800"]),
  ("skid steers", ["SKIDSTEER-1800"]),
  ("skidsteer", ["SKIDSTEER-1800"]),
  ("skidsteers", ["SKIDSTEER-1800"]),
  ("loader", ["SKIDSTEER-1800"]),
  ("loaders", ["SKIDSTEER-1800"]),
  ("mini excavator", ["EXCAVATOR-MINI"]),
  ("mini excavators", ["EXCAVATOR-MINI"]),
  ("excavator", ["EXCAVATOR-MINI"]),
  ("excavators", ["EXCAVATOR-MINI"]),
  ("propane heater", ["HEATER-PROPANE"]),
  ("propane heaters", ["HEATER-PROPANE"]),
  ("heater", ["HEATER-PROPANE"]),
  ("heaters", ["HEATER-PROPANE"]),
  ("drum fan", ["FAN-DRUM-36"]),
  ("drum fans", ["FAN-DRUM-36"]),
  ("fan", ["FAN-DRUM-36"]),
  ("fans", ["FAN-DRUM-36"]),
]

/-- `WORD_NUMBERS`: word-based quantity table, in source order. -/
def WORD_NUMBERS : List (String × Nat) := [("a", 1), ("an", 1), ("one", 1), ("two", 2), ("three", 3), ("four", 4), ("five", 5), ("six", 6), ("seven", 7), ("eight", 8), ("nine", 9), ("ten", 10), ("eleven", 11), ("twelve", 12), ("dozen", 12), ("thirteen", 13), ("fourteen", 14), ("fifteen", 15), ("sixteen", 16), ("seventeen", 17), ("eighteen", 18), ("nineteen", 19), ("twenty", 20), ("thirty", 30), ("forty", 40), ("fifty", 50), ("sixty", 60), ("seventy", 70), ("eighty", 80), ("ninety", 90), ("hundred", 100)]

/-! ### `difflib.SequenceMatcher` ratio (fuzzy similarity)

Model of `SequenceMatcher(None, a, b).ratio()` for strings shorter than 200
characters (so autojunk never fires, and neither does any junk-extension
loop): recursively split around the longest matching block — the longest
common substring, earliest in `a`, then earliest in `b` — and sum the block
lengths; `ratio = 2*M/(len a + len b)`.

`lcsSum` recurses on a fuel argument for structural recursion; each split
strictly shrinks `(ahi-alo)+(bhi-blo)`, so the fuel `a.length + b.length`
passed by `seqRatio` is always sufficient. -/

/-- Length of the common run of `a` and `b` starting at `i`, `j`, capped at
`ahi`/`bhi`.  Fuel-free: structurally recursive on the remaining span via
fuel `ahi - i`. -/
def matchLenAt (a b : List Char) (ahi bhi : Nat) : Nat → Nat → Nat → Nat
  | 0, _, _ => 0
  | fuel + 1, i, j =>
    if i < ahi ∧ j < bhi ∧ a.getD i ' ' = b.getD j ' ' then
      matchLenAt a b ahi bhi fuel (i + 1) (j + 1) + 1
    else 0

/-- `find_longest_match` over `[alo,ahi) × [blo,bhi)`: longest block,
ties broken by earliest start in `a`, then earliest start in `b`. -/
def findLongestMatch (a b : List Char) (alo ahi blo bhi : Nat) :
    Nat × Nat × Nat :=
  ((List.range' alo (ahi - alo)).flatMap
      (fun i => (List.range' blo (bhi - blo)).map (fun j => (i, j)))).foldl
    (fun best p =>
      let k := matchLenAt a b ahi bhi (ahi - p.1) p.1 p.2
      if k > best.2.2 then (p.1, p.2, k) else best)
    (alo, blo, 0)

/-- Total size of the matching blocks of `get_matching_blocks`. -/
def lcsSum (a b : List Char) : Nat → Nat → Nat → Nat → Nat → Nat
  | 0, _, _, _, _ => 0
  | fuel + 1, alo, ahi, blo, bhi =>
    let m := findLongestMatch a b alo ahi blo bhi
    if m.2.2 = 0 then 0
    else
      lcsSum a b fuel alo m.1 blo m.2.1 + m.2.2 +
        lcsSum a b fuel (m.1 + m.2.2) ahi (m.2.1 + m.2.2) bhi

/-- `SequenceMatcher(None, a, b).ratio()` as an exact rational. -/
def seqRatio (a b : List Char) : ℚ :=
  if a.length + b.length = 0 then 1
  else (2 * (lcsSum a b (a.length + b.length) 0 a.length 0 b.length) : ℚ) /
    (a.length + b.length)

/-- `similarity(a, b)` (item_parser.py): ratio of the lowercased strings. -/
def similarity (a b : String) : ℚ :=
  seqRatio (a.data.map lowerC) (b.data.map lowerC)

/-! ### `find_matching_sku` (item_parser.py) -/

/-- Computable `min` on `ℚ` (Python `min` of two floats). -/
def qmin (a b : ℚ) : ℚ := if a ≤ b then a else b

/-- First value for a key in an association list — Python `dict` lookup
(`ITEM_SYNONYMS` has no duplicate keys). -/
def assocLookup {β : Type} (l : List (String × β)) (k : String) : Option β :=
  (l.find? (fun p => p.1 == k)).map (·.2)

/-- Stable insertion sort of the synonym keys by length, descending —
Python `sorted(keys, key=len, reverse=True)`. -/
def insertByLenDesc (x : String) : List String → List String
  | [] => [x]
  | y :: ys =>
    if x.length ≥ y.length then x :: y :: ys else y :: insertByLenDesc x ys

def sortedSynonymKeys : List String :=
  (ITEM_SYNONYMS.map (·.1)).foldr insertByLenDesc []

/-- Python `needle in hay` (substring containment). -/
def containsSub (needle : List Char) : List Char → Bool
  | [] => needle.isEmpty
  | c :: cs => needle.isPrefixOf (c :: cs) || containsSub needle cs

/-- Substring stage: first synonym (longest-first) whose normalized form is
contained in the normalized item text. -/
def substringStage (itemNorm : String) : List String → Option (String × ℚ)
  | [] => none
  | syn :: rest =>
    if containsSub (normalize_text syn).data itemNorm.data then
      match assocLookup ITEM_SYNONYMS syn with
      | some skus => (skus.head?).map (fun sku =>
          (sku, qmin 1 (17/20 + (syn.length : ℚ) / 50)))
      | none => substringStage itemNorm rest
    else substringStage itemNorm rest

/-- Fuzzy stage: best similarity score `≥ minSim` over all synonyms. -/
def fuzzyStage (itemNorm : String) (minSim : ℚ) : Option String × ℚ :=
  ITEM_SYNONYMS.foldl
    (fun best p =>
      let score := similarity itemNorm (normalize_text p.1)
      if score > best.2 ∧ score ≥ minSim then (p.2.head?, score) else best)
    (none, 0)

/-- `find_matching_sku(item_text, min_similarity=0.55)`. -/
def find_matching_sku (item_text : String) (minSim : ℚ := 11/20) :
    Option String × ℚ :=
  let itemNorm := normalize_text item_text
  match assocLookup ITEM_SYNONYMS itemNorm with
  | some skus =>
    match skus.head? with
    | some sku => (some sku, 1)
    | none => (none, 0)
  | none =>
    match substringStage itemNorm sortedSynonymKeys with
    | some (sku, conf) => (some sku, conf)
    | none => fuzzyStage itemNorm minSim


/-! ### Line-item segmentation (`extract_line_items`, item_parser.py) -/

/-- Numeric value of a digit run — Python `int(...)` on a `\d+` group. -/
def natOfDigits (ds : List Char) : Nat :=
  ds.foldl (fun n c => n * 10 + (c.toNat - '0'.toNat)) 0

/-- `\s+(.+)$` after a group: at least one whitespace char, then a nonempty
remainder.  When the remainder after the maximal whitespace run is empty and
the run has length ≥ 2, Python's backtracking gives one whitespace character
back to `(.+)`. -/
def spaceThenRest (r : List Char) : Option (List Char) :=
  let w := r.takeWhile isWsC
  let rest := r.drop w.length
  if w.isEmpty then none
  else if !rest.isEmpty then some rest
  else if 2 ≤ w.length then some [w.getLastD ' ']
  else none

/-- `\s*(.+)$`: optional whitespace then a nonempty remainder (with the same
one-character give-back when everything left is whitespace). -/
def wsStarRest (r : List Char) : Option (List Char) :=
  let rest := r.dropWhile isWsC
  if !rest.isEmpty then some rest
  else if !r.isEmpty then some [r.getLastD ' ']
  else none

/-- `^(\d+)\s+(.+)$` (pattern 4, also the tail of patterns 1 and 2). -/
def digitsThenSpaceRest (l : List Char) : Option (Nat × List Char) :=
  let ds := l.takeWhile isDigitC
  if ds.isEmpty then none
  else (spaceThenRest (l.drop ds.length)).map (fun rest => (natOfDigits ds, rest))

/-- Case-insensitive literal match at the head (patterns are compiled with
`re.IGNORECASE`; the pattern literals are lowercase). -/
def prefixCI (pat : List Char) (l : List Char) : Bool :=
  pat.isPrefixOf (l.map lowerC |>.take pat.length)

/-- One filler-verb alternative of the prefix pattern: returns the number of
characters the verb itself consumes.  Multi-word verbs contain `\s+`. -/
def verbAltLen (ws : List (List Char)) (l : List Char) : Option Nat :=
  match ws with
  | [] => some 0
  | [w] => if prefixCI w l then some w.length else none
  | w :: rest =>
    if prefixCI w l then
      let r := l.drop w.length
      let sp := r.takeWhile isWsC
      if sp.isEmpty then none
      else (verbAltLen rest (r.drop sp.length)).map
        (fun k => w.length + sp.length + k)
    else none

/-- The filler-verb alternatives, in source order:
`need|want|require|looking\s+for|give\s+me|get\s+me|get|send|order`. -/
def verbAlts : List (List (List Char)) :=
  [[['n','e','e','d']], [['w','a','n','t']], [['r','e','q','u','i','r','e']],
   [['l','o','o','k','i','n','g'], ['f','o','r']],
   [['g','i','v','e'], ['m','e']], [['g','e','t'], ['m','e']],
   [['g','e','t']], [['s','e','n','d']], [['o','r','d','e','r']]]

/-- A verb alternative followed by the mandatory trailing `\s+`; alternatives
are tried in order and each one's continuation is checked before moving on. -/
def verbThenWs (l : List Char) : List (List (List Char)) → Option Nat
  | [] => none
  | alt :: rest =>
    match verbAltLen alt l with
    | some k =>
      let sp := (l.drop k).takeWhile isWsC
      if sp.isEmpty then verbThenWs l rest else some (k + sp.length)
    | none => verbThenWs l rest

/-- `re.sub(r'^(?:i\s+)?(?:need|...|order)\s+', '', text)`: strip one leading
filler prefix (the pattern is anchored, so at most one substitution). -/
def stripVerbPfx (l : List Char) : List Char :=
  let withI : Option Nat :=
    if prefixCI ['i'] l then
      let sp := (l.drop 1).takeWhile isWsC
      if sp.isEmpty then none
      else (verbThenWs (l.drop (1 + sp.length)) verbAlts).map
        (fun k => 1 + sp.length + k)
    else none
  match withI with
  | some k => l.drop k
  | none =>
    match verbThenWs l verbAlts with
    | some k => l.drop k
    | none => l

/-- A delimiter of `re.split(r'\s*(?:,|;)\s*|\s+and\s+', text)` starting at
the head: returns the matched length.  The first alternative is tried first,
as in the pattern. -/
def delimAt (l : List Char) : Option Nat :=
  let w1 := l.takeWhile isWsC
  let r1 := l.drop w1.length
  match r1 with
  | c :: r2 =>
    if c = ',' ∨ c = ';' then
      some (w1.length + 1 + (r2.takeWhile isWsC).length)
    else
      if !w1.isEmpty ∧ ['a','n','d'].isPrefixOf r1 then
        let sp := (r1.drop 3).takeWhile isWsC
        if sp.isEmpty then none else some (w1.length + 3 + sp.length)
      else none
  | [] => none

/-- `re.split` scanner; the `Nat` argument skips over the remainder of a
delimiter already consumed. -/
def splitGo : Nat → List Char → List Char → List (List Char)
  | n + 1, _ :: cs, cur => splitGo n cs cur
  | _, [], cur => [cur.reverse]
  | 0, c :: cs, cur =>
    match delimAt (c :: cs) with
    | some k => cur.reverse :: splitGo (k - 1) cs []
    | none => splitGo 0 cs (c :: cur)

def splitSegments (l : List Char) : List (List Char) := splitGo 0 l []

/-! ### `_parse_single_segment` (item_parser.py) -/

/-- A Parsed Line Item. -/
structure ParsedLine where
  qty : Nat
  normalizedName : String
  rawText : String
  sizeAttr : Option String
deriving DecidableEq, Repr

/-- Pattern 1: `^qty[:\s]*(\d+)\s+(.+)$`. -/
def matchQtyP (seg : List Char) : Option (Nat × List Char) :=
  if prefixCI ['q','t','y'] seg then
    let r := seg.drop 3
    let sep := r.takeWhile (fun c => c = ':' || isWsC c)
    digitsThenSpaceRest (r.drop sep.length)
  else none

/-- Pattern 2: `^(\d+)x\s+(.+)$`. -/
def matchNxP (seg : List Char) : Option (Nat × List Char) :=
  let ds := seg.takeWhile isDigitC
  if ds.isEmpty then none
  else
    match seg.drop ds.length with
    | c :: r =>
      if lowerC c = 'x' then
        (spaceThenRest r).map (fun rest => (natOfDigits ds, rest))
      else none
    | [] => none

/-- The size units of pattern 3, in alternation order: `inch|foot|ft|in`. -/
def sizeUnits : List (List Char) :=
  [['i','n','c','h'], ['f','o','o','t'], ['f','t'], ['i','n']]

/-- Try the unit alternatives of pattern 3 (each with its `\s*(.+)$`
continuation, as the regex engine does). -/
def tryUnits (r3 : List Char) : List (List Char) → Option (List Char × List Char)
  | [] => none
  | u :: us =>
    if prefixCI u r3 then
      match wsStarRest (r3.drop u.length) with
      | some rest => some (u, rest)
      | none => tryUnits r3 us
    else tryUnits r3 us

/-- Pattern 3: `^(\d+)\s+(\d+)\s*(inch|foot|ft|in)?\s*(.+)$`.  Returns
(quantity digits, size digits, optional unit, rest).  When nothing follows
the second number, the regex engine backtracks one digit out of `(\d+)` so
that `(.+)` can match it. -/
def matchSizeP (seg : List Char) : Option (Nat × List Char × Option (List Char) × List Char) :=
  let d1 := seg.takeWhile isDigitC
  if d1.isEmpty then none
  else
    let r1 := seg.drop d1.length
    let w1 := r1.takeWhile isWsC
    if w1.isEmpty then none
    else
      let r2 := r1.drop w1.length
      let d2 := r2.takeWhile isDigitC
      if d2.isEmpty then none
      else
        let afterD2 := r2.drop d2.length
        if afterD2.isEmpty then
          if 2 ≤ d2.length then
            some (natOfDigits d1, d2.dropLast, none, [d2.getLastD '0'])
          else none
        else
          let w2 := afterD2.takeWhile isWsC
          let r3 := afterD2.drop w2.length
          match tryUnits r3 sizeUnits with
          | some (u, rest) => some (natOfDigits d1, d2, some u, rest)
          | none =>
            if !r3.isEmpty then some (natOfDigits d1, d2, none, r3)
            else some (natOfDigits d1, d2, none, [afterD2.getLastD ' '])

/-- Word-number keys except `a`/`an` (pattern 5's inner alternation, in
source dict order). -/
def wordNumKeysNoA : List String :=
  (WORD_NUMBERS.map (·.1)).filter (fun k => k ≠ "a" ∧ k ≠ "an")

/-- All word-number keys (pattern 6's alternation, in source dict order). -/
def wordNumKeysAll : List String := WORD_NUMBERS.map (·.1)

/-- Try word alternatives, each with its `\s+(.+)$` continuation. -/
def tryWords (seg : List Char) : List String → Option (String × List Char)
  | [] => none
  | w :: rest =>
    if prefixCI w.data seg then
      match spaceThenRest (seg.drop w.length) with
      | some r => some (w, r)
      | none => tryWords seg rest
    else tryWords seg rest

/-- Pattern 5: `^(a|an)\s+(W1|W2|...)\s+(.+)$` (`a` tried before `an`). -/
def matchCompoundP (seg : List Char) : Option (Nat × List Char) :=
  let tryArticle (art : List Char) : Option (Nat × List Char) :=
    if prefixCI art seg then
      let r := seg.drop art.length
      let sp := r.takeWhile isWsC
      if sp.isEmpty then none
      else
        (tryWords (r.drop sp.length) wordNumKeysNoA).map
          (fun (w, rest) => ((assocLookup WORD_NUMBERS w).getD 1, rest))
    else none
  match tryArticle ['a'] with
  | some res => some res
  | none => tryArticle ['a','n']

/-- Pattern 6: `^(W1|W2|...)\s+(.+)$` over all word-number keys. -/
def matchWordNumP (seg : List Char) : Option (Nat × List Char) :=
  (tryWords seg wordNumKeysAll).map
    (fun (w, rest) => ((assocLookup WORD_NUMBERS w).getD 1, rest))

/-- `_parse_single_segment`: ordered patterns, first match wins; fallback is
quantity 1 with the whole segment as the name. -/
def parseSingleSegment (seg0 : List Char) : Option ParsedLine :=
  let seg := stripWs seg0
  if seg.isEmpty then none
  else
    match matchQtyP seg with
    | some (q, rest) =>
      some ⟨q, ⟨stripWs rest⟩, ⟨seg⟩, none⟩
    | none =>
    match matchNxP seg with
    | some (q, rest) =>
      some ⟨q, ⟨stripWs rest⟩, ⟨seg⟩, none⟩
    | none =>
    match matchSizeP seg with
    | some (q, sizeDs, unitOpt, rest) =>
      let unit : List Char :=
        match unitOpt with
        | none => ['i','n','c','h']
        | some u =>
          if u = ['i','n'] then ['i','n','c','h']
          else if u = ['f','t'] then ['f','o','o','t']
          else u
      let restS := stripWs rest
      some ⟨q, ⟨sizeDs ++ [' '] ++ unit ++ [' '] ++ restS⟩, ⟨seg⟩,
        some ⟨sizeDs ++ unit⟩⟩
    | none =>
    match digitsThenSpaceRest seg with
    | some (q, rest) =>
      some ⟨q, ⟨stripWs rest⟩, ⟨seg⟩, none⟩
    | none =>
    match matchCompoundP seg with
    | some (q, rest) =>
      some ⟨q, ⟨stripWs rest⟩, ⟨seg⟩, none⟩
    | none =>
    match matchWordNumP seg with
    | some (q, rest) =>
      some ⟨q, ⟨stripWs rest⟩, ⟨seg⟩, none⟩
    | none => some ⟨1, ⟨seg⟩, ⟨seg⟩, none⟩

/-- `extract_line_items`: normalize, strip the filler prefix, split into
segments, parse each (stripping the filler prefix again per segment); if no
item was produced, parse the whole normalized text as one segment. -/
def extract_line_items (text : String) : List ParsedLine :=
  let tn := stripVerbPfx (normChars text.data)
  let segs := splitSegments tn
  let items := segs.filterMap (fun seg =>
    let seg1 := stripWs seg
    if seg1.isEmpty then none
    else
      let seg2 := stripWs (stripVerbPfx seg1)
      if seg2.isEmpty then none
      else parseSingleSegment seg2)
  if items.isEmpty then
    match parseSingleSegment tn with
    | some it => [it]
    | none => []
  else items

/-! ### `parse_items_from_message` (item_parser.py) -/

/-- A Matched Item. -/
structure MatchedItem where
  sku : Option String
  quantity : Nat
  confidence : ℚ
  source : String
  matched : Bool
  unmatched_name : Option String
deriving DecidableEq, Repr

/-- Step 2 of `parse_items_from_message`: match every parsed line to a SKU
(`sku = none` entries are returned, flagged unmatched, never dropped). -/
def matchLineItems (lines : List ParsedLine) : List MatchedItem :=
  lines.map (fun li =>
    match find_matching_sku li.normalizedName with
    | (some sku, conf) => ⟨some sku, li.qty, conf, li.rawText, true, none⟩
    | (none, _) => ⟨none, li.qty, 0, li.rawText, false, some li.normalizedName⟩)

/-- One step of the deduplication loop: `seen` maps a SKU to the index of
its (unique) entry in the accumulated list. -/
def dedupStep (st : List (String × Nat) × List MatchedItem) (item : MatchedItem) :
    List (String × Nat) × List MatchedItem :=
  match item.sku with
  | none => (st.1, st.2 ++ [item])
  | some s =>
    match assocLookup st.1 s with
    | none => (st.1 ++ [(s, st.2.length)], st.2 ++ [item])
    | some i =>
      match st.2.get? i with
      | some cur => if cur.confidence < item.confidence then (st.1, st.2.set i item) else st
      | none => st

/-- Deduplication: same SKU keeps the higher-confidence entry (strictly
higher replaces); unmatched entries pass through. -/
def dedupItems (items : List MatchedItem) : List MatchedItem :=
  (items.foldl dedupStep ([], [])).2

/-- `parse_items_from_message`. -/
def parse_items_from_message (message : String) : List MatchedItem :=
  dedupItems (matchLineItems (extract_line_items message))


/-! ### `extract_duration_hint` (item_parser.py) -/

/-- Leftmost-match scanner with one character of left context (for `\b`). -/
def scanPrev {α : Type} (f : Option Char → List Char → Option α) :
    Option Char → List Char → Option α
  | prev, [] => f prev []
  | prev, c :: cs =>
    match f prev (c :: cs) with
    | some r => some r
    | none => scanPrev f (some c) cs

/-- `\b` before the current position. -/
def wbBefore (prev : Option Char) : Bool :=
  match prev with
  | none => true
  | some p => !isWordC p

/-- `\b(\d+)\s*days?\b` anchored at the current position. -/
def dayHintAt (prev : Option Char) (l : List Char) : Option Nat :=
  if wbBefore prev then
    let ds := l.takeWhile isDigitC
    if ds.isEmpty then none
    else
      let r := l.drop ds.length
      let r2 := r.drop (r.takeWhile isWsC).length
      if ['d','a','y'].isPrefixOf r2 then
        match r2.drop 3 with
        | 's' :: r4 => if wbAfter r4 then some (natOfDigits ds) else none
        | r3 => if wbAfter r3 then some (natOfDigits ds) else none
      else none
  else none

/-- `friday\s+(?:through|thru|to|-)\s+sunday` anchored at the current
position (alternatives in pattern order, each with its continuation). -/
def fridayThruAt (l : List Char) : Bool :=
  if ['f','r','i','d','a','y'].isPrefixOf l then
    let r := l.drop 6
    let sp := r.takeWhile isWsC
    if sp.isEmpty then false
    else
      let r2 := r.drop sp.length
      [['t','h','r','o','u','g','h'], ['t','h','r','u'], ['t','o'], ['-']].any
        (fun conn =>
          conn.isPrefixOf r2 &&
            (let r3 := r2.drop conn.length
             let sp2 := r3.takeWhile isWsC
             !sp2.isEmpty && ['s','u','n','d','a','y'].isPrefixOf (r3.drop sp2.length)))
  else false

/-- `\bweekend\b` anchored at the current position. -/
def weekendAt (prev : Option Char) (l : List Char) : Bool :=
  wbBefore prev && ['w','e','e','k','e','n','d'].isPrefixOf l && wbAfter (l.drop 7)

/-- `\b(?:a|one)\s+week\b` anchored at the current position (`a` before
`one`, each with its continuation). -/
def aWeekAt (prev : Option Char) (l : List Char) : Bool :=
  let cont (r : List Char) : Bool :=
    let sp := r.takeWhile isWsC
    !sp.isEmpty && ['w','e','e','k'].isPrefixOf (r.drop sp.length) &&
      wbAfter (r.drop (sp.length + 4))
  wbBefore prev &&
    ((['a'].isPrefixOf l && cont (l.drop 1)) ||
     (['o','n','e'].isPrefixOf l && cont (l.drop 3)))

/-- `\bmonth\b` anchored at the current position. -/
def monthAt (prev : Option Char) (l : List Char) : Bool :=
  wbBefore prev && ['m','o','n','t','h'].isPrefixOf l && wbAfter (l.drop 5)

/-- Lift an anchored Boolean matcher to a `re.search`-style scan. -/
def searchB (f : Option Char → List Char → Bool) (l : List Char) : Bool :=
  (scanPrev (fun p r => if f p r then some () else none) none l).isSome

/-- `extract_duration_hint(message)`: the ordered searches of the source. -/
def extract_duration_hint (message : String) : Option Nat :=
  let ml := message.data.map lowerC
  match scanPrev dayHintAt none ml with
  | some n => some n
  | none =>
    if searchB (fun _ r => fridayThruAt r) ml then some 3
    else if searchB weekendAt ml then some 3
    else if searchB aWeekAt ml then some 7
    else if searchB monthAt ml then some 30
    else none

/-! ### `_duration_days` (agent.py) -/

/-- Computable `max` on `ℤ` (Python `max`). -/
def imax (a b : Int) : Int := if a ≤ b then b else a

def isLeap (y : Nat) : Bool := (y % 4 = 0 && y % 100 ≠ 0) || y % 400 = 0

def monthDays (leap : Bool) : List Nat :=
  [31, if leap then 29 else 28, 31, 30, 31, 30, 31, 31, 30, 31, 30, 31]

def daysInMonth (y m : Nat) : Nat := (monthDays (isLeap y)).getD (m - 1) 31

def daysBeforeMonth (y m : Nat) : Nat :=
  ((monthDays (isLeap y)).take (m - 1)).foldl (· + ·) 0

/-- Proleptic-Gregorian ordinal of a date (CPython `date.toordinal`):
day 1 is 0001-01-01. -/
def toOrdinal (y m d : Nat) : Int :=
  let p := y - 1
  ((365 * p + p / 4 + p / 400 + daysBeforeMonth y m + d : Nat) : Int) -
    ((p / 100 : Nat) : Int)

/-- Modeled from `dateutil.parser.parse(s).date()`, restricted to the ISO
`YYYY-MM-DD` format used throughout the spec and tests; other formats
accepted by `dateutil` are outside the modeled domain (the theorems below
only assume or exercise ISO inputs). A malformed or out-of-range date is
`none` (dateutil raises, and `_duration_days` catches). -/
def parseISODate (s : String) : Option (Nat × Nat × Nat) :=
  match s.data.splitOn '-' with
  | [ys, ms, ds] =>
    if !ys.isEmpty ∧ !ms.isEmpty ∧ !ds.isEmpty ∧
        ys.all isDigitC ∧ ms.all isDigitC ∧ ds.all isDigitC then
      let y := natOfDigits ys
      let m := natOfDigits ms
      let d := natOfDigits ds
      if 1 ≤ y ∧ 1 ≤ m ∧ m ≤ 12 ∧ 1 ≤ d ∧ d ≤ daysInMonth y m then
        some (y, m, d)
      else none
    else none
  | _ => none

/-- `_duration_days(start_s, end_s, message, fallback_days)` (agent.py):
explicit dates first (`days = max(1, (end - start).days + 1)`, with **no**
reordering of a swapped pair); on parse failure or absence, the message
hint; else the fallback.  A hint of `0` is falsy in Python and falls
through to the fallback. -/
def duration_days (start_s end_s : Option String) (message : String)
    (fallback_days : Int := 3) : Int :=
  let fromDates : Option Int :=
    match start_s, end_s with
    | some ss, some es =>
      if ss ≠ "" ∧ es ≠ "" then
        match parseISODate ss, parseISODate es with
        | some (y1, m1, d1), some (y2, m2, d2) =>
          some (imax 1 (toOrdinal y2 m2 d2 - toOrdinal y1 m1 d1 + 1))
        | _, _ => none
      else none
    | _, _ => none
  match fromDates with
  | some d => d
  | none =>
    if message ≠ "" then
      match extract_duration_hint message with
      | some h => if h ≠ 0 then (h : Int) else fallback_days
      | none => fallback_days
    else fallback_days

/-! ### Pricing engine (`_compute`, agent.py) -/

/-- Round-half-to-even to an integer (Python `round` on exact values). -/
def rndHalfEven (q : ℚ) : ℤ :=
  let f := q.floor
  if q - f < mkRat 1 2 then f
  else if mkRat 1 2 < q - f then f + 1
  else if f % 2 = 0 then f else f + 1

/-- Python `round(x, 2)` on exact values. -/
def round2 (q : ℚ) : ℚ := (rndHalfEven (q * 100) : ℚ) / 100

/-- Computable `max` on `ℚ` (Python `max`). -/
def qmax (a b : ℚ) : ℚ := if a < b then b else a

/-- A `rates` row: `{daily, delivery_fee_base}`. -/
structure RateRec where
  daily : ℚ
  delivery_fee_base : ℚ
deriving DecidableEq, Repr

/-- A computed quote line item (`line_items` entry of `_compute`). -/
structure LineOut where
  sku : String
  name : String
  qty : Int
  unitPrice : ℚ
  subtotal : ℚ
deriving DecidableEq, Repr

/-- A fee entry (`fees` entry of `_compute`; the goodwill-discount entry of
the feedback route uses the JSON key `"rule"` instead of `"name"` — both are
modeled by the `name` field). -/
structure FeeOut where
  name : String
  amount : ℚ
deriving DecidableEq, Repr

/-- The quote object built by `_compute` (and mutated by `feedback`). -/
structure QuoteOut where
  items : List LineOut
  subtotal : ℚ
  subtotal_before_discount : ℚ
  discount_pct : ℚ
  discount_amount : ℚ
  fees : List FeeOut
  tax : ℚ
  total : ℚ
  days : Int
  notes : List String
deriving DecidableEq, Repr

/-- The policy fields `_compute` reads, with their Python defaults:
`tier_discounts[tier].pct` (0.0 when absent), `default_damage_waiver.pct`
(0.0), `tax_rate.pct` (0.0). -/
structure Policies where
  tier_discounts : List (String × ℚ)
  damage_waiver_pct : ℚ
  tax_rate_pct : ℚ
deriving DecidableEq, Repr

inductive PricingError
  /-- `ValueError(f"rate not found for {sku}")` from `_fetch_rate_for_sku`. -/
  | rateNotFound (sku : String)
deriving DecidableEq, Repr

/-- The per-item loop of `_compute`: builds the line items and accumulates
the (unrounded) subtotal and the max delivery-fee base.  Note that
`extended = round(unit * qty, 2)` is computed from the **unrounded**
`unit = daily * days`; only the displayed `unitPrice` field is rounded. -/
def computeLines (rates : List (String × RateRec)) (names : List (String × String))
    (days : Int) :
    List (String × Int) → Except PricingError (List LineOut × ℚ × ℚ)
  | [] => .ok ([], 0, 0)
  | (sku, qty) :: restItems =>
    match assocLookup rates sku with
    | none => .error (.rateNotFound sku)
    | some r =>
      let name := (assocLookup names sku).getD sku
      let unit : ℚ := r.daily * (days : ℚ)
      let extended := round2 (unit * (qty : ℚ))
      match computeLines rates names days restItems with
      | .error e => .error e
      | .ok (ls, sub, md) =>
        .ok (⟨sku, name, qty, round2 unit, extended⟩ :: ls,
          extended + sub, qmax r.delivery_fee_base md)

/-- `_compute(items, days, policies, tier)`.  (`_fetch_rate_for_sku` and
`_fetch_name_for_sku` are modeled by association-list lookups; a missing
rate is fatal, a missing name falls back to the SKU.) -/
def computeQuote (rates : List (String × RateRec)) (names : List (String × String))
    (items : List (String × Int)) (days : Int) (pol : Policies) (tier : String) :
    Except PricingError QuoteOut :=
  match computeLines rates names days items with
  | .error e => .error e
  | .ok (lines, rawSub, maxDel) =>
    let subtotal := round2 rawSub
    let discount_pct := (assocLookup pol.tier_discounts tier).getD 0
    let discount_amount := round2 (subtotal * discount_pct / 100)
    let subAfter := round2 (subtotal - discount_amount)
    let dw := if pol.damage_waiver_pct ≠ 0 then
        round2 (subAfter * pol.damage_waiver_pct / 100) else 0
    let deliveryFee := if maxDel ≠ 0 then round2 maxDel else 0
    let fees := (if dw ≠ 0 then [(⟨"Damage Waiver", dw⟩ : FeeOut)] else []) ++
      (if deliveryFee ≠ 0 then [(⟨"Delivery & Pickup", deliveryFee⟩ : FeeOut)] else [])
    let taxable := subAfter + dw + deliveryFee
    let tax := if pol.tax_rate_pct ≠ 0 then round2 (taxable * pol.tax_rate_pct / 100) else 0
    let total := round2 (taxable + tax)
    .ok ⟨lines, subAfter, subtotal, discount_pct, discount_amount, fees, tax, total, days, []⟩


/-! ### Location resolver (location_resolver.py) -/

def KNOWN_LOCATIONS : List (String × List String) := [
  ("Dallas, TX", ["dallas", "dallas tx", "dallas, tx", "dallas metro", "dallas area", "dallas metro area"]),
  ("Fort Worth, TX", ["fort worth", "fort worth tx", "fort worth, tx", "ft worth", "ft. worth", "fortworth"]),
  ("Plano, TX", ["plano", "plano tx", "plano, tx"]),
  ("Arlington, TX", ["arlington", "arlington tx", "arlington, tx"]),
  ("Southlake, TX", ["southlake", "southlake tx", "southlake, tx"])]

def isLetterC (c : Char) : Bool := ('a' ≤ c && c ≤ 'z') || ('A' ≤ c && c ≤ 'Z')

/-- Model of Python `str.upper()` for one ASCII character. -/
def upperC (c : Char) : Char :=
  if 'a' ≤ c ∧ c ≤ 'z' then Char.ofNat (c.toNat - 32) else c

/-- Model of Python `str.title()` (ASCII): uppercase each letter that
follows a non-letter, lowercase the rest. -/
def asciiTitle (l : List Char) : List Char :=
  (l.foldl
    (fun (acc : List Char × Bool) c =>
      if isLetterC c then (acc.1 ++ [if acc.2 then lowerC c else upperC c], true)
      else (acc.1 ++ [c], false))
    ([], false)).1

/-- `str.strip()` on `String`. -/
def stripS (s : String) : String := ⟨stripWs s.data⟩

/-- Python truthiness of an optional string. -/
def truthyS : Option String → Bool
  | some s => s ≠ ""
  | none => false

/-- A multi-word city literal of `LOCATION_PATTERNS` 1–2: words joined by
`\s*` (so `fort\s*worth` also matches `fortworth`).  Returns the matched
length. -/
def matchCityWords : List (List Char) → List Char → Option Nat
  | [], _ => some 0
  | [w], l => if prefixCI w l then some w.length else none
  | w :: rest, l =>
    if prefixCI w l then
      let r := l.drop w.length
      let sp := r.takeWhile isWsC
      (matchCityWords rest (r.drop sp.length)).map
        (fun k => w.length + sp.length + k)
    else none

/-- The optional suffix `(?:\s*,?\s*(?:tx|texas))?` of patterns 1–2 together
with the closing `\b` (`tx` is tried before `texas`; on a failed boundary the
engine backtracks to the next alternative, then out of the group). -/
def citySuffix (l : List Char) : Option Nat :=
  let w1 := l.takeWhile isWsC
  let r1 := l.drop w1.length
  let (cLen, r2) :=
    match r1 with
    | ',' :: r => (1, r)
    | _ => (0, r1)
  let w2 := r2.takeWhile isWsC
  let r3 := r2.drop w2.length
  if prefixCI ['t','x'] r3 ∧ wbAfter (r3.drop 2) then
    some (w1.length + cLen + w2.length + 2)
  else if prefixCI ['t','e','x','a','s'] r3 ∧ wbAfter (r3.drop 5) then
    some (w1.length + cLen + w2.length + 5)
  else none

/-- Patterns 1–2 anchored at the current position: `\b` before, a city
alternative (in order), then the optional state suffix or a plain `\b`.
Returns the group-1 length (the city span). -/
def cityMatchAt (pats : List (List (List Char))) (prev : Option Char)
    (l : List Char) : Option Nat :=
  if wbBefore prev then
    pats.findSome? (fun ws =>
      match matchCityWords ws l with
      | some k =>
        if (citySuffix (l.drop k)).isSome || wbAfter (l.drop k) then some k
        else none
      | none => none)
  else none

/-- `re.search` of patterns 1–2: returns the original-text slice of group 1. -/
def searchCity (pats : List (List (List Char))) (l : List Char) :
    Option (List Char) :=
  scanPrev (fun prev r => (cityMatchAt pats prev r).map (fun k => r.take k)) none l

def cityPats1 : List (List (List Char)) :=
  [[['d','a','l','l','a','s']], [['f','o','r','t'], ['w','o','r','t','h']],
   [['p','l','a','n','o']], [['a','r','l','i','n','g','t','o','n']],
   [['s','o','u','t','h','l','a','k','e']]]

def cityPats2 : List (List (List Char)) :=
  [[['a','u','s','t','i','n']], [['h','o','u','s','t','o','n']],
   [['s','a','n'], ['a','n','t','o','n','i','o']]]

/-- Try `f` on `n, n-1, ..., minL` (regex backtracking order for a greedy
`[a-z]+` run). -/
def tryLenDesc (minL : Nat) (f : Nat → Option Nat) : Nat → Option Nat
  | 0 => none
  | n + 1 =>
    if n + 1 < minL then none
    else
      match f (n + 1) with
      | some r => some r
      | none => tryLenDesc minL f n

/-- The optional `(?:,\s*[A-Z]{2})?` of patterns 3–5 together with the
closing `\b` (with-comma tried first, as the group is greedy).  Returns the
extra consumed length. -/
def commaThenBd (r : List Char) : Option Nat :=
  let withComma : Option Nat :=
    match r with
    | ',' :: r1 =>
      let sp := r1.takeWhile isWsC
      let r2 := r1.drop sp.length
      if (r2.take 2).length = 2 ∧ (r2.take 2).all isLetterC ∧ wbAfter (r2.drop 2) then
        some (1 + sp.length + 2)
      else none
    | _ => none
  match withComma with
  | some k => some k
  | none => if wbAfter r then some 0 else none

/-- Group 1 of patterns 3–5, `[A-Z][a-z]+(?:\s+[A-Z][a-z]+)?(?:,\s*[A-Z]{2})?`
followed by `\b`, under `re.IGNORECASE` (so the classes mean "letter").
Greedy with full backtracking over the word-run lengths and the optional
parts.  Returns the group length. -/
def cityGroupAt (l : List Char) : Option Nat :=
  let run1 := (l.takeWhile isLetterC).length
  tryLenDesc 2
    (fun len1 =>
      let afterW1 := l.drop len1
      let withW2 : Option Nat :=
        let sp := afterW1.takeWhile isWsC
        if sp.isEmpty then none
        else
          let r2 := afterW1.drop sp.length
          let run2 := (r2.takeWhile isLetterC).length
          tryLenDesc 2
            (fun len2 =>
              (commaThenBd (r2.drop len2)).map
                (fun ck => len1 + sp.length + len2 + ck))
            run2
      match withW2 with
      | some k => some k
      | none => (commaThenBd afterW1).map (fun ck => len1 + ck))
    run1

/-- Patterns 3–5 (`\bin\s+(...)`, `\bat\s+(...)`, `\bnear\s+(...)`) anchored
at the current position; returns the original slice of group 1. -/
def inAtNearAt (kw : List Char) (prev : Option Char) (l : List Char) :
    Option (List Char) :=
  if wbBefore prev ∧ prefixCI kw l then
    let r := l.drop kw.length
    let sp := r.takeWhile isWsC
    if sp.isEmpty then none
    else (cityGroupAt (r.drop sp.length)).map (fun k => (r.drop sp.length).take k)
  else none

def searchInAtNear (kw : List Char) (l : List Char) : Option (List Char) :=
  scanPrev (inAtNearAt kw) none l

/-- `_get_canonical_location(location_lower)`. -/
def getCanonicalLocation (ll : List Char) : Option String :=
  KNOWN_LOCATIONS.findSome? (fun p =>
    if p.2.any (fun a => a.data == ll) || (p.1.data.map lowerC) == ll then some p.1
    else none)

/-- `_normalize_location(location)`: canonical name when known, else
`location.title()`. -/
def normalizeLocation (location : String) : String :=
  if location = "" then location
  else
    match getCanonicalLocation (stripWs (location.data.map lowerC)) with
    | some canon => canon
    | none => ⟨asciiTitle location.data⟩

/-- `_extract_location_from_text(text)`: the known-location alias scan (on
the lowercased text), then the five regex patterns in order; a pattern's
match is normalized and returned if nonempty. -/
def extract_location_from_text (text : String) : Option String :=
  if text = "" then none
  else
    let tl := text.data.map lowerC
    match
      KNOWN_LOCATIONS.findSome? (fun p =>
        p.2.findSome? (fun a => if containsSub a.data tl then some p.1 else none))
    with
    | some canon => some canon
    | none =>
      let patResults : List (Option (List Char)) :=
        [searchCity cityPats1 text.data, searchCity cityPats2 text.data,
         searchInAtNear ['i','n'] text.data, searchInAtNear ['a','t'] text.data,
         searchInAtNear ['n','e','a','r'] text.data]
      patResults.findSome? (fun r =>
        r.bind (fun grp =>
          let loc := normalizeLocation ⟨stripWs grp⟩
          if loc ≠ "" then some loc else none))

/-- Maximal `\w+` runs — `re.findall(r'\b\w+\b', s)` (word-boundary pairs
around maximal word runs are automatic). -/
def wordRunsGo : List Char → List Char → List (List Char)
  | cur, [] => if cur.isEmpty then [] else [cur.reverse]
  | cur, c :: cs =>
    if isWordC c then wordRunsGo (c :: cur) cs
    else (if cur.isEmpty then [] else [cur.reverse]) ++ wordRunsGo [] cs

def wordRuns (l : List Char) : List (List Char) := wordRunsGo [] l

/-- The stopword set of `_locations_match`. -/
def locStopWords : List (List Char) :=
  ["tx", "texas", "metro", "area", "downtown", "north", "south", "east", "west"].map
    String.data

/-- `_locations_match(location1, location2)`: the five tiers of the source —
case-insensitive equality, containment, shared canonical entry, fuzzy ratio
≥ threshold, and meaningful-word overlap. -/
def locations_match (thr : ℚ) (location1 location2 : String) : Bool :=
  if location1 = "" ∨ location2 = "" then false
  else
    let l1 := stripWs (location1.data.map lowerC)
    let l2 := stripWs (location2.data.map lowerC)
    if l1 == l2 then true
    else if containsSub l1 l2 || containsSub l2 l1 then true
    else if
        (match getCanonicalLocation l1, getCanonicalLocation l2 with
         | some a, some b => a == b
         | _, _ => false) then true
    else if thr ≤ seqRatio l1 l2 then true
    else
      let w1 := (wordRuns l1).filter (fun w => !locStopWords.contains w)
      let w2 := (wordRuns l2).filter (fun w => !locStopWords.contains w)
      !w1.isEmpty && !w2.isEmpty && w1.any (fun w => w2.contains w)

/-- `_determine_final_location(free_text, selected_label, postal_code)`:
`(final, conflict, conflict_message, rationale)`. -/
def determineFinalLocation (thr : ℚ) (free_text selected_label postal_code : Option String) :
    String × Bool × Option String × String :=
  if truthyS selected_label then
    let sel := selected_label.getD ""
    if truthyS free_text then
      let ft := free_text.getD ""
      let conflict := !locations_match thr ft sel
      if conflict then
        (sel, true,
          some ("Location mismatch: customer wrote '" ++ ft ++ "' but selected '" ++
            sel ++ "'. Using selected location for pricing."),
          "Selected service location '" ++ sel ++ "' used for pricing. Customer mentioned '" ++
            ft ++ "' in their request - please confirm.")
      else
        (sel, false, none,
          "Service location '" ++ sel ++ "' confirmed by customer request.")
    else
      (sel, false, none, "Service location '" ++ sel ++ "' selected by customer.")
  else if truthyS free_text then
    (free_text.getD "", false, none,
      "Location '" ++ free_text.getD "" ++ "' identified from customer request.")
  else if truthyS postal_code then
    ("ZIP " ++ postal_code.getD "", false, none,
      "Location based on postal code " ++ postal_code.getD "" ++ ".")
  else
    ("Unknown / Not provided", false, none,
      "No specific location provided. Default service area assumed.")

structure ServiceLocMeta where
  zone : Option String
  region : Option String
deriving DecidableEq, Repr

structure ResolvedLocation where
  location_free_text : Option String
  location_selected : Option String
  location_selected_id : Option String
  location_selected_meta : Option ServiceLocMeta
  location_final : String
  location_conflict : Bool
  conflict_message : Option String
  rationale : String
deriving DecidableEq, Repr

/-- `LocationResolver.resolve` (the module-level `resolve_location` uses the
default threshold 0.6). -/
def resolve_location (request_text selected_location_id selected_location_label : Option String)
    (selected_location_meta : Option ServiceLocMeta) (postal_code : Option String)
    (thr : ℚ := 3/5) : ResolvedLocation :=
  let free :=
    if truthyS request_text then extract_location_from_text (request_text.getD "")
    else none
  let r := determineFinalLocation thr free selected_location_label postal_code
  ⟨free, selected_location_label, selected_location_id, selected_location_meta,
    r.1, r.2.1, r.2.2.1, r.2.2.2⟩

/-! ### Feedback / goodwill discount (routes/quote.py, `feedback`) -/

/-- The mutation the `feedback` route applies to the stored quote: for
`rating <= 3` and positive subtotal, append one non-taxable goodwill-discount
fee of `round(subtotal * 0.10, 2)` and reduce `total` only (`subtotal` and
`tax` are not touched, nor recomputed). -/
def feedback_apply (rating : Int) (q : QuoteOut) : QuoteOut :=
  if rating ≤ 3 ∧ 0 < q.subtotal then
    let discount := round2 (q.subtotal * (1 / 10))
    { q with
      fees := q.fees ++ [⟨"goodwill_discount", -discount⟩],
      total := round2 (q.total - discount) }
  else q

/-! ### Quote loop (`run_quote_loop`, agent.py)

The database stores (policies, rates, inventory names) are passed as values;
the OpenAI summary call is an external collaborator modeled by its outcome.
Note texts are modeled for the `en-US` label set (the `es-ES`/`ar-SA`/`ja-JP`
label tables are word-for-word translations of the same structure and are
elided; no claim depends on them). -/

structure RunPayload where
  message : Option String
  items : List (String × Int)
  customer_tier : Option String
  start_date : Option String
  end_date : Option String
  language : Option String

/-- Outcome of the OpenAI summary call: a stripped explanation, an
`OpenAIError`, or any other exception. -/
inductive AIOutcome
  | ok (text : String)
  | apiError
  | otherError

inductive RunError
  | rateNotFound (sku : String)
  /-- `ValueError("subtotal must be positive")` — the guardrail raise; the
  spec's error taxonomy names this kind `GuardrailViolation`. -/
  | guardrailViolation
deriving DecidableEq, Repr

/-- The normalize stage's message: `(payload.get("message") or "").strip()`. -/
def runMsg (payload : RunPayload) : String := stripS (payload.message.getD "")

/-- `payload.get("customer_tier") or "C"`. -/
def runTier (payload : RunPayload) : String :=
  match payload.customer_tier with
  | some t => if t ≠ "" then t else "C"
  | none => "C"

/-- Items parsed from the message (empty when there is no message). -/
def runParsedAll (payload : RunPayload) : List MatchedItem :=
  if runMsg payload ≠ "" then parse_items_from_message (runMsg payload) else []

/-- The matched parsed items (`i["matched"] and i["sku"]`). -/
def runParsedMatched (payload : RunPayload) : List MatchedItem :=
  (runParsedAll payload).filter (fun i => i.matched && (i.sku.getD "") ≠ "")

/-- The unmatched parsed items. -/
def runUnmatched (payload : RunPayload) : List MatchedItem :=
  (runParsedAll payload).filter (fun i => !(i.matched && (i.sku.getD "") ≠ ""))

/-- Item resolution: explicit payload items, else parsed items, else the
safety-fallback default item. -/
def runItems (payload : RunPayload) : List (String × Int) :=
  let items1 :=
    if !payload.items.isEmpty then payload.items
    else (runParsedMatched payload).map (fun i => (i.sku.getD "", (i.quantity : Int)))
  if items1.isEmpty then [("CHAIR-FOLD-WHT", (100 : Int))] else items1

/-- The resolved rental duration. -/
def runDays (payload : RunPayload) : Int :=
  duration_days payload.start_date payload.end_date (runMsg payload) 3

def run_quote_loop (payload : RunPayload) (rates : List (String × RateRec))
    (names : List (String × String)) (pol : Policies) (ai : AIOutcome) :
    Except RunError QuoteOut :=
  let msg := runMsg payload
  let tier := runTier payload
  let unmatchedItems := runUnmatched payload
  let usedParser := !(runParsedMatched payload).isEmpty
  let usedFallback :=
    (if !payload.items.isEmpty then payload.items
     else (runParsedMatched payload).map (fun i => (i.sku.getD "", (i.quantity : Int)))).isEmpty
  let items := runItems payload
  let days := runDays payload
  match computeQuote rates names items days pol tier with
  | .error (.rateNotFound s) => .error (.rateNotFound s)
  | .ok quote =>
    if quote.subtotal ≤ 0 then .error .guardrailViolation
    else
      let aiNote :=
        match ai with
        | .ok t => t
        | .apiError => "Our AI quote assistant is temporarily unavailable, but your quote has been calculated accurately."
        | .otherError => "Quote calculated successfully. Our team is ready to assist with any questions."
      let notes := [aiNote] ++
        (if usedParser then
          ["Intelligent parsing identified " ++ toString items.length ++
            " equipment type(s) from your request."] else []) ++
        (if usedFallback then
          ["Sample quote generated. Please specify your equipment needs for an accurate estimate."]
         else []) ++
        (if !unmatchedItems.isEmpty then
          ["Note: Could not match the following items: " ++
            String.intercalate ", " (unmatchedItems.map (fun i => i.unmatched_name.getD "unknown")) ++
            ". Please verify or contact us for assistance."] else []) ++
        (if truthyS payload.start_date ∧ truthyS payload.end_date then
          ["Rental period: " ++ toString days ++ " day(s) based on your specified dates."]
         else
          match (if msg ≠ "" then extract_duration_hint msg else none) with
          | some h =>
            if h ≠ 0 then
              ["Estimated " ++ toString days ++ "-day rental based on your request."]
            else []
          | none => [])
      .ok { quote with notes := notes }


/-! ### Analysis definitions for the deduplication theorems -/

/-- The replacement rule of the dedup loop: the later entry wins only with
strictly higher confidence (ties keep the earlier entry). -/
def chooseHigher (a b : MatchedItem) : MatchedItem :=
  if a.confidence < b.confidence then b else a

/-- What deduplication leaves of the entries of one SKU: nothing when there
were none, else exactly the fold of `chooseHigher` over them in order. -/
def skuFold : List MatchedItem → List MatchedItem
  | [] => []
  | h :: t => [t.foldl chooseHigher h]

/-- The entries of one (matched) SKU. -/
def fS (s : String) (l : List MatchedItem) : List MatchedItem :=
  l.filter (fun i => i.sku == some s)

/-- The unmatched entries. -/
def fN (l : List MatchedItem) : List MatchedItem :=
  l.filter (fun i => i.sku == none)

/-- Invariant of the dedup loop state after processing a prefix `p`:
per-SKU entries are the `chooseHigher` fold, unmatched entries pass through,
`seen` indexes are accurate, and every output entry is an input entry. -/
def DedupInv (p : List MatchedItem) (seen : List (String × Nat))
    (uniq : List MatchedItem) : Prop :=
  (∀ s, fS s uniq = skuFold (fS s p)) ∧
  (fN uniq = fN p) ∧
  (∀ s i, assocLookup seen s = some i →
    ∃ x, uniq.get? i = some x ∧ x.sku = some s) ∧
  (∀ s, assocLookup seen s = none → fS s p = []) ∧
  (∀ e ∈ uniq, e ∈ p)

instance {ε α : Type} [DecidableEq ε] [DecidableEq α] : DecidableEq (Except ε α)
  | .ok a, .ok b =>
    if h : a = b then .isTrue (by rw [h]) else .isFalse (by simp [h])
  | .error a, .error b =>
    if h : a = b then .isTrue (by rw [h]) else .isFalse (by simp [h])
  | .ok _, .error _ => .isFalse (by simp)
  | .error _, .ok _ => .isFalse (by simp)


/-! ### C9 analysis: definitions -/

/-- No position of `l` matches `(\d+)` followed by `chk`: at every suffix of
`l` with a digit head, `chk` rejects the part after the digit run. -/
def NoMat (chk : List Char → Option Nat) (l : List Char) : Prop :=
  ∀ c cs, (c :: cs) <:+ l → isDigitC c = true →
    chk ((c :: cs).dropWhile isDigitC) = none

/-- One-pass rewriting relation of the `re.sub` scanner: characters are
copied (recording, at digit positions, that the check failed there), and a
matched region `ds ++ M` (a digit run, then the region the check consumed)
becomes `ds ++ rep`. -/
inductive Rew (check : List Char → Option Nat) (rep : List Char) :
    List Char → List Char → Prop
  | nil : Rew check rep [] []
  | keep (c : Char) (l m : List Char) :
      (isDigitC c = true → check ((c :: l).dropWhile isDigitC) = none) →
      Rew check rep l m → Rew check rep (c :: l) (c :: m)
  | sub (ds M z m : List Char) (k : Nat) :
      ds ≠ [] → (∀ d ∈ ds, isDigitC d = true) →
      (∃ c M', M = c :: M' ∧ isDigitC c = false) →
      check (M ++ z) = some k →
      Rew check rep z m → Rew check rep (ds ++ M ++ z) (ds ++ rep ++ m)

/-- Rewriting relation of whitespace collapse: non-whitespace characters are
copied, each maximal whitespace run becomes one space. -/
inductive CRew : List Char → List Char → Prop
  | nil : CRew [] []
  | keep (c : Char) (l m : List Char) : isWsC c = false →
      CRew l m → CRew (c :: l) (c :: m)
  | wsb (w : List Char) (l m : List Char) : w ≠ [] →
      (∀ c ∈ w, isWsC c = true) →
      (∀ c, l.head? = some c → isWsC c = false) →
      CRew l m → CRew (w ++ l) (' ' :: m)

/-- The interface shared by the rewriting relations, used to transfer
pattern failure from input to output: digit- and whitespace-free prefixes
synchronise, word boundaries agree, and the relation is stable under
dropping leading whitespace. -/
def SyncOK (R : List Char → List Char → Prop) : Prop :=
  (∀ x x', R x x' → ∀ p y', (∀ c ∈ p, isDigitC c = false ∧ isWsC c = false) →
      x' = p ++ y' → ∃ y, x = p ++ y ∧ R y y') ∧
  (∀ x x', R x x' → wbAfter x = wbAfter x') ∧
  (∀ x x', R x x' → R (x.dropWhile isWsC) (x'.dropWhile isWsC))

/-- Collapsed whitespace shape: every whitespace character is a space and is
not followed by whitespace. -/
def WSP : List Char → Prop
  | [] => True
  | [c] => isWsC c = true → c = ' '
  | c :: d :: t => (isWsC c = true → c = ' ' ∧ isWsC d = false) ∧ WSP (d :: t)

/-- Output shape of a full `normalize_text` pass: lowercase, stripped,
collapsed whitespace, and no residual match of any of the six patterns. -/
def NormFixed (u : List Char) : Prop :=
  (∀ c ∈ u, lowerC c = c) ∧ stripWs u = u ∧ WSP u ∧
  NoMat chkQuote u ∧ NoMat chkDashInch u ∧ NoMat chkInB u ∧
  NoMat chkDashFoot u ∧ NoMat chkFtB u ∧ NoMat chkWsFt u

/-! ## Claim theorems -/

set_option maxRecDepth 1000000
set_option maxHeartbeats 4000000

/-- C7: End-to-end parsing of the message
`"50 white folding chairs and 5 60-inch round tables"` yields exactly two
matched items with quantities 50 and 5, resolved to two distinct SKUs; the
folding-chair SKU differs from both table SKUs, and the round-table SKU
differs from the rectangular-table SKU. -/
theorem end_to_end_scenario1 :
    parse_items_from_message "50 white folding chairs and 5 60-inch round tables" =
      [⟨some "CHAIR-FOLD-WHT", 50, 1, "50 white folding chairs", true, none⟩,
       ⟨some "TABLE-60RND", 5, 1, "5 60 inch round tables", true, none⟩] ∧
    "CHAIR-FOLD-WHT" ≠ "TABLE-60RND" ∧ "CHAIR-FOLD-WHT" ≠ "TABLE-8FT-RECT" ∧
    "TABLE-60RND" ≠ "TABLE-8FT-RECT" := by
  exact ⟨by decide, by decide, by decide, by decide⟩

/-- C2 counterexample: swapping the two date arguments does **not** yield the
same inclusive day count — `('2024-04-14','2024-04-12')` yields 1 (the claim
says 3), while the ordered pair yields 3.  There is no reordering of a
swapped pair in `_duration_days`. -/
theorem duration_swap_cex :
    duration_days (some "2024-04-14") (some "2024-04-12") "" 3 = 1 ∧
    duration_days (some "2024-04-12") (some "2024-04-14") "" 3 = 3 ∧
    (1 : Int) ≠ 3 := by
  exact ⟨by decide, by decide, by decide⟩

/-- C2 (amended): for every pair of successfully parsed dates the extractor
computes `days = max(1, (end - start).days + 1)` with **no** reordering, so a
swapped pair (negative difference) is clamped to 1 rather than reordered. -/
theorem duration_days_no_reorder (ss es msg : String) (fb : Int)
    (y1 m1 d1 y2 m2 d2 : Nat)
    (h1 : parseISODate ss = some (y1, m1, d1))
    (h2 : parseISODate es = some (y2, m2, d2)) :
    duration_days (some ss) (some es) msg fb =
      imax 1 (toOrdinal y2 m2 d2 - toOrdinal y1 m1 d1 + 1) := by
  have hss : ss ≠ "" := by
    intro h
    subst h
    simp [parseISODate] at h1
  have hes : es ≠ "" := by
    intro h
    subst h
    simp [parseISODate] at h2
  simp only [duration_days, hss, hes, ne_eq, not_false_iff, and_self, if_true, h1, h2]

/-- C2 witness: the amended formula at the concrete swapped pair. -/
theorem duration_days_no_reorder_witness :
    duration_days (some "2024-04-14") (some "2024-04-12") "" 3 =
      imax 1 (toOrdinal 2024 4 12 - toOrdinal 2024 4 14 + 1) :=
  duration_days_no_reorder "2024-04-14" "2024-04-12" "" 3 2024 4 14 2024 4 12
    (by decide) (by decide)

/-- C1 counterexample: with `dailyRate = 257/256` (binary-exact `1.00390625`),
`days = 1`, `quantity = 10`, the engine's line subtotal is
`round(dailyRate*days*quantity, 2) = 10.04`, computed from the *unrounded*
unit price, whereas the claimed `round(round(dailyRate*days, 2)*quantity, 2)`
is `10.00`. -/
theorem unit_rounding_cex :
    (computeQuote [("SKU-A", ⟨mkRat 257 256, 0⟩)] [] [("SKU-A", 10)] 1
        ⟨[], 0, 0⟩ "C").toOption.map (fun q => q.items.map (·.subtotal)) =
      some [mkRat 1004 100] ∧
    round2 (round2 (mkRat 257 256 * 1) * 10) = 10 ∧
    mkRat 1004 100 ≠ 10 := by
  exact ⟨by decide, by decide, by decide⟩

/-- Helper for C1: the per-item loop of `_compute` produces, for every line
item, `unitPrice = round2 (daily * days)` and
`subtotal = round2 (daily * days * qty)` (the product of the **unrounded**
unit price and the quantity), and returns the unrounded running sum. -/
theorem computeLines_spec (rates : List (String × RateRec))
    (names : List (String × String)) (days : Int) :
    ∀ (items : List (String × Int)) (lines : List LineOut) (sub md : ℚ),
      computeLines rates names days items = .ok (lines, sub, md) →
      (∀ li ∈ lines, ∃ sku qty r, (sku, qty) ∈ items ∧
          assocLookup rates sku = some r ∧
          li.unitPrice = round2 (r.daily * (days : ℚ)) ∧
          li.subtotal = round2 (r.daily * (days : ℚ) * (qty : ℚ))) ∧
      sub = (lines.map (·.subtotal)).sum := by
  intro items
  induction items with
  | nil =>
    intro lines sub md h
    simp only [computeLines, Except.ok.injEq, Prod.mk.injEq] at h
    obtain ⟨rfl, rfl, rfl⟩ := h
    simp
  | cons hd tl ih =>
    intro lines sub md h
    obtain ⟨sku, qty⟩ := hd
    simp only [computeLines] at h
    cases hr : assocLookup rates sku with
    | none => rw [hr] at h; exact absurd h (by simp)
    | some r =>
      rw [hr] at h
      cases hrec : computeLines rates names days tl with
      | error e => rw [hrec] at h; exact absurd h (by simp)
      | ok acc =>
        obtain ⟨ls, sub', md'⟩ := acc
        rw [hrec] at h
        simp only [Except.ok.injEq, Prod.mk.injEq] at h
        obtain ⟨rfl, rfl, rfl⟩ := h
        obtain ⟨ihmem, ihsum⟩ := ih ls sub' md' hrec
        constructor
        · intro li hli
          rcases List.mem_cons.mp hli with heq | hmem
          · exact ⟨sku, qty, r, List.mem_cons_self _ _, hr, by rw [heq], by rw [heq]⟩
          · obtain ⟨sku', qty', r', hin, hlk, hu, hs⟩ := ihmem li hmem
            exact ⟨sku', qty', r', List.mem_cons_of_mem _ hin, hlk, hu, hs⟩
        · simp [ihsum]

/-- C1 (amended): for every priced quote, each line item's reported
`unitPrice` is `round(dailyRate*days, 2)`, but its `subtotal` is
`round(dailyRate*days*quantity, 2)` — the rounding happens **after**
multiplying the unrounded unit price by the quantity, not before.  The
aggregates are rounded immediately as computed:
`subtotalBeforeDiscount = round(Σ lineSubtotal, 2)`,
`discountAmount = round(subtotalBeforeDiscount*discountPct/100, 2)`,
`subtotal = round(subtotalBeforeDiscount - discountAmount, 2)`. -/
theorem pricing_rounds_after_multiplying (rates : List (String × RateRec))
    (names : List (String × String)) (items : List (String × Int)) (days : Int)
    (pol : Policies) (tier : String) (q : QuoteOut)
    (h : computeQuote rates names items days pol tier = .ok q) :
    (∀ li ∈ q.items, ∃ sku qty r, (sku, qty) ∈ items ∧
        assocLookup rates sku = some r ∧
        li.unitPrice = round2 (r.daily * (days : ℚ)) ∧
        li.subtotal = round2 (r.daily * (days : ℚ) * (qty : ℚ))) ∧
    q.subtotal_before_discount = round2 ((q.items.map (·.subtotal)).sum) ∧
    q.discount_amount = round2 (q.subtotal_before_discount * q.discount_pct / 100) ∧
    q.subtotal = round2 (q.subtotal_before_discount - q.discount_amount) := by
  simp only [computeQuote] at h
  cases hcl : computeLines rates names days items with
  | error e => rw [hcl] at h; exact absurd h (by simp)
  | ok acc =>
    obtain ⟨lines, rawSub, maxDel⟩ := acc
    rw [hcl] at h
    simp only [Except.ok.injEq] at h
    obtain ⟨hmem, hsum⟩ := computeLines_spec rates names days items lines rawSub maxDel hcl
    subst h
    exact ⟨hmem, by simp [hsum], rfl, rfl⟩

/-- C1 witness: the amended per-line formulas at the counterexample input. -/
theorem pricing_rounds_after_multiplying_witness :
    (∀ li ∈ ([⟨"SKU-A", "SKU-A", 10, 1, mkRat 1004 100⟩] : List LineOut),
      ∃ sku qty r, (sku, qty) ∈ [("SKU-A", (10 : Int))] ∧
        assocLookup [("SKU-A", (⟨mkRat 257 256, 0⟩ : RateRec))] sku = some r ∧
        li.unitPrice = round2 (r.daily * ((1 : Int) : ℚ)) ∧
        li.subtotal = round2 (r.daily * ((1 : Int) : ℚ) * ((qty : Int) : ℚ))) ∧
    (mkRat 1004 100 : ℚ) = round2 (([⟨"SKU-A", "SKU-A", 10, 1, mkRat 1004 100⟩] :
        List LineOut).map (·.subtotal)).sum ∧
    (0 : ℚ) = round2 (mkRat 1004 100 * 0 / 100) ∧
    (mkRat 1004 100 : ℚ) = round2 (mkRat 1004 100 - 0) := by
  have h := pricing_rounds_after_multiplying
    [("SKU-A", ⟨mkRat 257 256, 0⟩)] [] [("SKU-A", 10)] 1 ⟨[], 0, 0⟩ "C"
    ⟨[⟨"SKU-A", "SKU-A", 10, 1, mkRat 1004 100⟩], mkRat 1004 100, mkRat 1004 100,
      0, 0, [], 0, mkRat 1004 100, 1, []⟩ (by decide)
  exact h

/-- C3: round-trip of the synonym catalog — every synonym key `k` mapping to
SKU `X` satisfies `find_matching_sku k = (some X, 1.0)`, including the eight
keys that are not fixed points of `normalize_text` (e.g. the keys containing
`8ft`, `60"`, `60-inch`), which are resolved through the longest-substring
stage with confidence capped at 1.0. -/
theorem synonym_round_trip :
    ∀ k skus, (k, skus) ∈ ITEM_SYNONYMS → find_matching_sku k = (skus.head?, 1) := by
  have hall : ITEM_SYNONYMS.all
      (fun p => find_matching_sku p.1 == (p.2.head?, 1)) = true := by decide
  intro k skus hmem
  have := List.all_eq_true.mp hall (k, skus) hmem
  exact eq_of_beq this

/-- C3 witness: a key that is not a fixed point of normalization. -/
theorem synonym_round_trip_witness :
    find_matching_sku "8ft banquet table" = ((["TABLE-8FT-RECT"] : List String).head?, 1) :=
  synonym_round_trip "8ft banquet table" ["TABLE-8FT-RECT"] (by decide)


/-- Helper for C5: the first component of `_determine_final_location` is the
selected label whenever one is present, in every branch. -/
theorem determineFinal_sel (thr : ℚ) (free postal : Option String) (lbl : String)
    (h : lbl ≠ "") :
    (determineFinalLocation thr free (some lbl) postal).1 = lbl := by
  have ht : truthyS (some lbl) = true := by simpa [truthyS] using h
  unfold determineFinalLocation
  rw [ht]
  by_cases hf : truthyS free = true
  · rw [if_pos rfl, if_pos hf]
    by_cases hc : (!locations_match thr (free.getD "") ((some lbl).getD "")) = true
    · rw [if_pos hc]
      rfl
    · rw [if_neg hc]
      rfl
  · rw [if_pos rfl, if_neg hf]
    rfl


/-- C5: location precedence — whenever a (nonempty) selected location label
is present, the resolver's final location equals it, regardless of the
free-text request and of whatever location is extracted from it. -/
theorem location_selection_precedence (request_text selId : Option String)
    (meta : Option ServiceLocMeta) (postal : Option String) (lbl : String)
    (thr : ℚ) (h : lbl ≠ "") :
    (resolve_location request_text selId (some lbl) meta postal thr).location_final = lbl := by
  unfold resolve_location
  exact determineFinal_sel thr _ postal lbl h

/-- C5 witness: a concrete call with both free text and a selection. -/
theorem location_selection_precedence_witness :
    (resolve_location (some "Need equipment in Austin") none (some "Dallas, TX")
        none none (3/5)).location_final = "Dallas, TX" :=
  location_selection_precedence (some "Need equipment in Austin") none none none
    "Dallas, TX" (3/5) (by decide)

/-- C6: guardrail — whenever the computed (post-discount) subtotal of the
priced quote is ≤ 0, `run_quote_loop` raises (the spec's GuardrailViolation,
`ValueError("subtotal must be positive")` in the source) and returns no
quote, hence no total. -/
theorem guardrail_rejects_nonpositive_subtotal (payload : RunPayload)
    (rates : List (String × RateRec)) (names : List (String × String))
    (pol : Policies) (ai : AIOutcome) (q : QuoteOut)
    (h : computeQuote rates names (runItems payload) (runDays payload) pol
        (runTier payload) = .ok q)
    (hq : q.subtotal ≤ 0) :
    run_quote_loop payload rates names pol ai = .error .guardrailViolation := by
  simp only [run_quote_loop, h]
  simp [hq]

/-- C6 witness: a zero daily rate produces subtotal 0 and the guardrail
error. -/
theorem guardrail_rejects_nonpositive_subtotal_witness :
    run_quote_loop ⟨none, [("X", 1)], none, none, none, none⟩ [("X", ⟨0, 0⟩)] []
      ⟨[], 0, 0⟩ .apiError = .error .guardrailViolation :=
  guardrail_rejects_nonpositive_subtotal _ _ _ _ _
    ⟨[⟨"X", "X", 1, 0, 0⟩], 0, 0, 0, 0, [], 0, 0, 3, []⟩ (by decide) (by decide)

/-- `Rat.floor` of an integer. -/
theorem ratFloor_intCast (k : ℤ) : Rat.floor ((k : ℚ)) = k := by
  have h1 : k ≤ Rat.floor ((k : ℚ)) := Rat.le_floor.mpr (le_refl _)
  have h2 : (Rat.floor ((k : ℚ)) : ℚ) ≤ (k : ℚ) := Rat.le_floor.mp (le_refl _)
  exact le_antisymm (by exact_mod_cast h2) h1

/-- Round-half-even fixes integers. -/
theorem rndHalfEven_intCast (k : ℤ) : rndHalfEven ((k : ℚ)) = k := by
  simp only [rndHalfEven, ratFloor_intCast, sub_self, Rat.mkRat_eq_div]
  norm_num

/-- `round2` fixes every value that is an integer number of cents. -/
theorem round2_cents (k : ℤ) : round2 ((k : ℚ) / 100) = (k : ℚ) / 100 := by
  unfold round2
  have h : ((k : ℚ) / 100) * 100 = (k : ℚ) := by
    field_simp
  rw [h, rndHalfEven_intCast]

/-- `round2` is nonnegative on nonnegative input. -/
theorem round2_nonneg (x : ℚ) (h : 0 ≤ x) : 0 ≤ round2 x := by
  have hf : (0 : ℤ) ≤ Rat.floor (x * 100) :=
    Rat.le_floor.mpr (by positivity)
  have hk : (0 : ℤ) ≤ rndHalfEven (x * 100) := by
    simp only [rndHalfEven]
    split
    · exact hf
    · split
      · omega
      · split <;> omega
  unfold round2
  exact div_nonneg (by exact_mod_cast hk) (by norm_num)

/-- Every `round2` output is an integer number of cents. -/
theorem round2_is_cents (x : ℚ) : ∃ k : ℤ, round2 x = (k : ℚ) / 100 :=
  ⟨rndHalfEven (x * 100), rfl⟩

/-- C8: frame property of the feedback / goodwill-discount step — on any
stored quote whose `total` is an exact number of cents (as every quote from
the pricing pass is), `feedback_apply` leaves `subtotal`, `tax`, and every
other field except `fees`/`total` exactly as computed, appends at most one
fee entry, and can only reduce `total`. -/
theorem feedback_goodwill_frame (rating : Int) (q : QuoteOut)
    (h : round2 q.total = q.total) :
    (feedback_apply rating q).subtotal = q.subtotal ∧
    (feedback_apply rating q).tax = q.tax ∧
    (feedback_apply rating q).items = q.items ∧
    (feedback_apply rating q).subtotal_before_discount = q.subtotal_before_discount ∧
    (feedback_apply rating q).discount_pct = q.discount_pct ∧
    (feedback_apply rating q).discount_amount = q.discount_amount ∧
    (feedback_apply rating q).days = q.days ∧
    (feedback_apply rating q).notes = q.notes ∧
    ((feedback_apply rating q).fees = q.fees ∨
      ∃ f, (feedback_apply rating q).fees = q.fees ++ [f]) ∧
    (feedback_apply rating q).total ≤ q.total := by
  unfold feedback_apply
  by_cases hb : rating ≤ 3 ∧ 0 < q.subtotal
  · rw [if_pos hb]
    refine ⟨rfl, rfl, rfl, rfl, rfl, rfl, rfl, rfl,
      Or.inr ⟨_, rfl⟩, ?_⟩
    set d := round2 (q.subtotal * (1 / 10)) with hd
    have hd0 : 0 ≤ d := round2_nonneg _ (by nlinarith [hb.2])
    obtain ⟨kd, hkd⟩ := round2_is_cents (q.subtotal * (1 / 10))
    have hkt : q.total = ((rndHalfEven (q.total * 100) : ℤ) : ℚ) / 100 := by
      conv_lhs => rw [← h]
      rfl
    set m := rndHalfEven (q.total * 100)
    have hdiff : q.total - d = (((m - kd : ℤ)) : ℚ) / 100 := by
      rw [hkt, ← hd] at *
      rw [hkd] at *
      push_cast
      ring
    have : round2 (q.total - d) = q.total - d := by
      rw [hdiff]
      exact round2_cents _
    simp only [this]
    linarith
  · rw [if_neg hb]
    exact ⟨rfl, rfl, rfl, rfl, rfl, rfl, rfl, rfl, Or.inl rfl, le_refl _⟩

/-- C8 witness: a concrete low rating and quote. -/
theorem feedback_goodwill_frame_witness :
    (feedback_apply 2 ⟨[], 10, 10, 0, 0, [], 1, 11, 3, []⟩).subtotal = 10 ∧
    (feedback_apply 2 ⟨[], 10, 10, 0, 0, [], 1, 11, 3, []⟩).tax = 1 ∧
    (feedback_apply 2 ⟨[], 10, 10, 0, 0, [], 1, 11, 3, []⟩).items = [] ∧
    (feedback_apply 2 ⟨[], 10, 10, 0, 0, [], 1, 11, 3, []⟩).subtotal_before_discount = 10 ∧
    (feedback_apply 2 ⟨[], 10, 10, 0, 0, [], 1, 11, 3, []⟩).discount_pct = 0 ∧
    (feedback_apply 2 ⟨[], 10, 10, 0, 0, [], 1, 11, 3, []⟩).discount_amount = 0 ∧
    (feedback_apply 2 ⟨[], 10, 10, 0, 0, [], 1, 11, 3, []⟩).days = 3 ∧
    (feedback_apply 2 ⟨[], 10, 10, 0, 0, [], 1, 11, 3, []⟩).notes = [] ∧
    ((feedback_apply 2 ⟨[], 10, 10, 0, 0, [], 1, 11, 3, []⟩).fees = [] ∨
      ∃ f, (feedback_apply 2 ⟨[], 10, 10, 0, 0, [], 1, 11, 3, []⟩).fees = [] ++ [f]) ∧
    (feedback_apply 2 ⟨[], 10, 10, 0, 0, [], 1, 11, 3, []⟩).total ≤ 11 :=
  feedback_goodwill_frame 2 ⟨[], 10, 10, 0, 0, [], 1, 11, 3, []⟩ (by decide)



/-- C4 and C10 rest on the dedup-loop lemmas below. -/
theorem assocLookup_append {β : Type} (l1 l2 : List (String × β)) (k : String) :
    assocLookup (l1 ++ l2) k = (assocLookup l1 k).or (assocLookup l2 k) := by
  unfold assocLookup
  rw [List.find?_append]
  cases List.find? (fun p => p.1 == k) l1 <;> simp

theorem fS_append (s : String) (a b : List MatchedItem) :
    fS s (a ++ b) = fS s a ++ fS s b := by simp [fS]

theorem fN_append (a b : List MatchedItem) :
    fN (a ++ b) = fN a ++ fN b := by simp [fN]

theorem set_at_append {α : Type} (a : List α) (y x : α) (b : List α) :
    (a ++ y :: b).set a.length x = a ++ x :: b := by
  induction a with
  | nil => rfl
  | cons h t ih => simpa [List.set] using ih

theorem fS_single_some (s : String) (x : MatchedItem) (h : x.sku = some s) :
    fS s [x] = [x] := by simp [fS, h]

theorem fS_single_other (s : String) (x : MatchedItem) (h : x.sku ≠ some s) :
    fS s [x] = [] := by simp [fS, h]

theorem fN_single_some (x : MatchedItem) (h : x.sku = none) :
    fN [x] = [x] := by simp [fN, h]

theorem fN_single_other (x : MatchedItem) (h : x.sku ≠ none) :
    fN [x] = [] := by simp [fN, h]

theorem skuFold_append_one (l : List MatchedItem) (x : MatchedItem) (h : l ≠ []) :
    skuFold (l ++ [x]) =
      [chooseHigher ((skuFold l).headD x) x] := by
  match l with
  | [] => exact absurd rfl h
  | h0 :: t => simp [skuFold, List.foldl_append]

-- the decomposition of uniq at a known index
theorem get?_decomp {α : Type} (l : List α) (i : Nat) (x : α) (h : l.get? i = some x) :
    ∃ a b, l = a ++ x :: b ∧ a.length = i := by
  have hi : i < l.length := by
    by_contra hc
    push_neg at hc
    rw [List.get?_eq_none.mpr hc] at h
    exact absurd h (by simp)
  refine ⟨l.take i, l.drop (i + 1), ?_, List.length_take_of_le (le_of_lt hi)⟩
  have hx : l.get ⟨i, hi⟩ = x := by
    have := List.get?_eq_get hi
    rw [this] at h
    exact Option.some_injective _ h
  calc l = l.take i ++ l.drop i := (List.take_append_drop i l).symm
    _ = l.take i ++ x :: l.drop (i + 1) := by
        congr 1
        rw [List.drop_eq_get_cons hi, hx]

-- step lemma
theorem dedupStep_inv (p : List MatchedItem) (seen : List (String × Nat))
    (uniq : List MatchedItem) (x : MatchedItem) (hinv : DedupInv p seen uniq) :
    DedupInv (p ++ [x]) (dedupStep (seen, uniq) x).1 (dedupStep (seen, uniq) x).2 := by
  obtain ⟨h1, h2, h3, h4, h5⟩ := hinv
  cases hsku : x.sku with
  | none =>
    simp only [dedupStep, hsku]
    refine ⟨?_, ?_, ?_, ?_, ?_⟩
    · intro s
      rw [fS_append, fS_append, fS_single_other s x (by simp [hsku])]
      simp [h1 s]
    · rw [fN_append, fN_append, fN_single_some x hsku, h2]
    · intro s i hl
      obtain ⟨y, hy, hys⟩ := h3 s i hl
      have hi : i < uniq.length := by
        rcases List.get?_eq_some.mp hy with ⟨hh, _⟩
        exact hh
      refine ⟨y, ?_, hys⟩
      rw [List.get?_append hi]
      exact hy
    · intro s hl
      rw [fS_append, h4 s hl, fS_single_other s x (by simp [hsku])]
      simp
    · intro e he
      rcases List.mem_append.mp he with h | h
      · exact List.mem_append_left _ (h5 e h)
      · exact List.mem_append_right _ h
  | some s0 =>
    cases hlk : assocLookup seen s0 with
    | none =>
      simp only [dedupStep, hsku, hlk]
      refine ⟨?_, ?_, ?_, ?_, ?_⟩
      · intro s
        by_cases hs : s0 = s
        · subst hs
          rw [fS_append, fS_append, fS_single_some s0 x hsku, h1 s0, h4 s0 hlk]
          simp [skuFold]
        · rw [fS_append, fS_append, fS_single_other s x (by simp [hsku, hs])]
          simp [h1 s]
      · rw [fN_append, fN_append, fN_single_other x (by simp [hsku]), h2]
      · intro s i hl
        rw [assocLookup_append] at hl
        cases hsl : assocLookup seen s with
        | some j =>
          rw [hsl] at hl
          simp at hl
          subst hl
          obtain ⟨y, hy, hys⟩ := h3 s j hsl
          have hi : j < uniq.length := by
            rcases List.get?_eq_some.mp hy with ⟨hh, _⟩
            exact hh
          refine ⟨y, ?_, hys⟩
          rw [List.get?_append hi]
          exact hy
        | none =>
          rw [hsl] at hl
          simp only [assocLookup, List.find?_cons, List.find?_nil] at hl
          by_cases hseq : s0 = s
          · subst hseq
            simp at hl
            subst hl
            refine ⟨x, ?_, hsku⟩
            simp
          · simp [show (s0 == s) = false by simpa using hseq] at hl
      · intro s hl
        rw [assocLookup_append] at hl
        cases hsl : assocLookup seen s with
        | some j => rw [hsl] at hl; simp at hl
        | none =>
          rw [hsl] at hl
          simp only [assocLookup, List.find?_cons, List.find?_nil] at hl
          have hss : ¬s0 = s := by
            intro hc
            subst hc
            simp at hl
          rw [fS_append, h4 s hsl, fS_single_other s x (by simp [hsku, hss])]
          simp
      · intro e he
        rcases List.mem_append.mp he with h | h
        · exact List.mem_append_left _ (h5 e h)
        · exact List.mem_append_right _ h
    | some i =>
      -- existing sku: the unique s0-entry of uniq sits at index i
      obtain ⟨y, hy, hys⟩ := h3 s0 i hlk
      simp only [dedupStep, hsku, hlk, hy]
      obtain ⟨a, b, hdec, hlen⟩ := get?_decomp uniq i y hy
      have hkey : fS s0 a ++ [y] ++ fS s0 b = skuFold (fS s0 p) := by
        have hh := h1 s0
        rw [hdec, fS_append, show y :: b = [y] ++ b from rfl, fS_append,
          fS_single_some s0 y hys] at hh
        simpa [List.append_assoc] using hh
      have hi : i < uniq.length := by
        rcases List.get?_eq_some.mp hy with ⟨hh, _⟩
        exact hh
      rcases hfsp : fS s0 p with _ | ⟨h0, t⟩
      · exfalso
        rw [hfsp] at hkey
        simp [skuFold] at hkey
      · rw [hfsp] at hkey
        simp only [skuFold] at hkey
        have hsplit : fS s0 a = [] ∧ fS s0 b = [] ∧ y = List.foldl chooseHigher h0 t := by
          have hlens := congrArg List.length hkey
          simp only [List.length_append, List.length_cons, List.length_nil,
            List.length_singleton] at hlens
          have ha0 : (fS s0 a).length = 0 := by omega
          have hb0 : (fS s0 b).length = 0 := by omega
          rw [List.length_eq_zero] at ha0 hb0
          rw [ha0, hb0] at hkey
          simp at hkey
          exact ⟨ha0, hb0, hkey⟩
        obtain ⟨hfa, hfb, hyfold⟩ := hsplit
        by_cases hconf : y.confidence < x.confidence
        · rw [if_pos hconf]
          have hset : uniq.set i x = a ++ x :: b := by
            rw [hdec, ← hlen, set_at_append]
          refine ⟨?_, ?_, ?_, ?_, ?_⟩
          · intro s
            by_cases hs : s0 = s
            · subst hs
              rw [hset, fS_append, show x :: b = [x] ++ b from rfl, fS_append,
                fS_single_some s0 x hsku, hfa, hfb, fS_append, hfsp,
                fS_single_some s0 x hsku]
              simp only [skuFold, List.foldl_append, List.foldl_cons, List.foldl_nil,
                List.nil_append, List.append_nil]
              simp [← hyfold, chooseHigher, hconf]
            · rw [hset, fS_append, show x :: b = [x] ++ b from rfl, fS_append, fS_append,
                fS_single_other s x (by simp [hsku, hs])]
              have hh := h1 s
              rw [hdec, fS_append, show y :: b = [y] ++ b from rfl, fS_append,
                fS_single_other s y (by simp [hys, hs])] at hh
              simpa using hh
          · rw [hset, fN_append, show x :: b = [x] ++ b from rfl, fN_append, fN_append,
              fN_single_other x (by simp [hsku])]
            have hh := h2
            rw [hdec, fN_append, show y :: b = [y] ++ b from rfl, fN_append,
              fN_single_other y (by simp [hys])] at hh
            simpa using hh
          · intro s j hl
            by_cases hj : j = i
            · subst hj
              obtain ⟨z, hz, hzs⟩ := h3 s j hl
              rw [hy] at hz
              have hzy : y = z := by injection hz
              have hss : s = s0 := by
                rw [← hzy, hys] at hzs
                injection hzs with hzs
                exact hzs.symm
              subst hss
              refine ⟨x, ?_, hsku⟩
              rw [List.get?_set_eq_of_lt _ hi]
            · obtain ⟨z, hz, hzs⟩ := h3 s j hl
              refine ⟨z, ?_, hzs⟩
              rw [List.get?_set_ne _ _ (show i ≠ j from fun hc => hj hc.symm), hz]
          · intro s hl
            have hss : ¬s0 = s := by
              intro hc
              subst hc
              rw [hlk] at hl
              exact absurd hl (by simp)
            rw [fS_append, h4 s hl, fS_single_other s x (by simp [hsku, hss])]
            simp
          · intro e he
            rcases List.mem_or_eq_of_mem_set he with h | h
            · exact List.mem_append_left _ (h5 e h)
            · subst h
              exact List.mem_append_right _ (by simp)
        · rw [if_neg hconf]
          refine ⟨?_, ?_, h3, ?_, ?_⟩
          · intro s
            by_cases hs : s0 = s
            · subst hs
              rw [h1 s0, fS_append, hfsp, fS_single_some s0 x hsku]
              simp only [skuFold, List.foldl_append, List.foldl_cons, List.foldl_nil]
              simp [← hyfold, chooseHigher, hconf]
            · rw [fS_append, fS_single_other s x (by simp [hsku, hs]), h1 s]
              simp
          · rw [fN_append, fN_single_other x (by simp [hsku]), h2]
            simp
          · intro s hl
            have hss : ¬s0 = s := by
              intro hc
              subst hc
              rw [hlk] at hl
              exact absurd hl (by simp)
            rw [fS_append, h4 s hl, fS_single_other s x (by simp [hsku, hss])]
            simp
          · intro e he
            exact List.mem_append_left _ (h5 e he)

theorem dedup_go (todo : List MatchedItem) :
    ∀ (p : List MatchedItem) (seen : List (String × Nat)) (uniq : List MatchedItem),
      DedupInv p seen uniq →
      DedupInv (p ++ todo) (todo.foldl dedupStep (seen, uniq)).1
        (todo.foldl dedupStep (seen, uniq)).2 := by
  induction todo with
  | nil =>
    intro p seen uniq h
    simpa using h
  | cons x td ih =>
    intro p seen uniq h
    have hstep := dedupStep_inv p seen uniq x h
    have := ih (p ++ [x]) (dedupStep (seen, uniq) x).1 (dedupStep (seen, uniq) x).2 hstep
    simpa [List.foldl_cons, List.append_assoc] using this

theorem dedupInv_nil : DedupInv [] [] [] := by
  refine ⟨?_, ?_, ?_, ?_, ?_⟩
  · intro s; rfl
  · rfl
  · intro s i hl; simp [assocLookup] at hl
  · intro s _; rfl
  · intro e he; simp at he

theorem dedupItems_spec (items : List MatchedItem) :
    (∀ s, fS s (dedupItems items) = skuFold (fS s items)) ∧
    fN (dedupItems items) = fN items ∧
    (∀ e ∈ dedupItems items, e ∈ items) := by
  have h := dedup_go items [] [] [] dedupInv_nil
  obtain ⟨h1, h2, _, _, h5⟩ := h
  exact ⟨fun s => by simpa [dedupItems] using h1 s,
    by simpa [dedupItems] using h2,
    fun e he => by simpa using h5 e (by simpa [dedupItems] using he)⟩

theorem chooseHigher_left (a b : MatchedItem) :
    a.confidence ≤ (chooseHigher a b).confidence := by
  unfold chooseHigher
  split
  · linarith [show a.confidence < b.confidence by assumption]
  · exact le_refl _

theorem chooseHigher_right (a b : MatchedItem) :
    b.confidence ≤ (chooseHigher a b).confidence := by
  unfold chooseHigher
  split
  · exact le_refl _
  · linarith [le_of_not_lt (show ¬a.confidence < b.confidence by assumption)]

theorem foldl_chooseHigher_mem (t : List MatchedItem) :
    ∀ h0, t.foldl chooseHigher h0 ∈ h0 :: t := by
  induction t with
  | nil => intro h0; simp
  | cons a t ih =>
    intro h0
    rw [List.foldl_cons]
    have h := ih (chooseHigher h0 a)
    rcases List.mem_cons.mp h with heq | hmem
    · rw [heq]
      unfold chooseHigher
      split
      · exact List.mem_cons_of_mem _ (List.mem_cons_self _ _)
      · exact List.mem_cons_self _ _
    · exact List.mem_cons_of_mem _ (List.mem_cons_of_mem _ hmem)

theorem foldl_chooseHigher_ge (t : List MatchedItem) :
    ∀ h0, ∀ d ∈ h0 :: t, d.confidence ≤ (t.foldl chooseHigher h0).confidence := by
  induction t with
  | nil =>
    intro h0 d hd
    simp at hd
    subst hd
    exact le_refl _
  | cons a t ih =>
    intro h0 d hd
    rw [List.foldl_cons]
    rcases List.mem_cons.mp hd with rfl | hd'
    · exact le_trans (chooseHigher_left d a)
        (ih (chooseHigher d a) _ (List.mem_cons_self _ _))
    · rcases List.mem_cons.mp hd' with rfl | hd''
      · exact le_trans (chooseHigher_right h0 d)
          (ih (chooseHigher h0 d) _ (List.mem_cons_self _ _))
      · exact ih (chooseHigher h0 a) d (List.mem_cons_of_mem _ hd'')


theorem skuFold_length_le (l : List MatchedItem) : (skuFold l).length ≤ 1 := by
  cases l <;> simp [skuFold]

/-- C4: within one parse, at most one matched item per non-null SKU; the
retained entry for a duplicated SKU has the highest confidence among the
duplicates; and every unmatched (sku = none) entry from segmentation+matching
is preserved verbatim, never deduplicated or dropped. -/
theorem parse_dedup_invariants (msg : String) (s : String) :
    ((parse_items_from_message msg).filter (fun i => i.sku == some s)).length ≤ 1 ∧
    (∀ e ∈ parse_items_from_message msg, e.sku = some s →
      ∀ d ∈ matchLineItems (extract_line_items msg), d.sku = some s →
        d.confidence ≤ e.confidence) ∧
    (parse_items_from_message msg).filter (fun i => i.sku == none) =
      (matchLineItems (extract_line_items msg)).filter (fun i => i.sku == none) := by
  obtain ⟨h1, h2, _⟩ := dedupItems_spec (matchLineItems (extract_line_items msg))
  refine ⟨?_, ?_, h2⟩
  · show (fS s (dedupItems (matchLineItems (extract_line_items msg)))).length ≤ 1
    rw [h1 s]
    exact skuFold_length_le _
  · intro e he hes d hd hds
    have hef : e ∈ fS s (dedupItems (matchLineItems (extract_line_items msg))) :=
      List.mem_filter.mpr ⟨he, by simp [hes]⟩
    have hdf : d ∈ fS s (matchLineItems (extract_line_items msg)) :=
      List.mem_filter.mpr ⟨hd, by simp [hds]⟩
    rw [h1 s] at hef
    cases hfsp : fS s (matchLineItems (extract_line_items msg)) with
    | nil => rw [hfsp] at hdf; simp at hdf
    | cons h0 t =>
      rw [hfsp] at hef hdf
      simp only [skuFold, List.mem_singleton] at hef
      subst hef
      exact foldl_chooseHigher_ge t h0 d hdf

/-- C4 witness. -/
theorem parse_dedup_invariants_witness :
    ((parse_items_from_message "10 chairs and 10 chairs").filter
      (fun i => i.sku == some "CHAIR-FOLD-WHT")).length ≤ 1 :=
  (parse_dedup_invariants "10 chairs and 10 chairs" "CHAIR-FOLD-WHT").1

/-- C10 (implicit): quantities of a repeated SKU are never summed — every
output entry is literally one of the pre-dedup entries, and the entry kept
for a SKU is the `chooseHigher` fold over its occurrences in order (a later
occurrence replaces the earlier one only with strictly higher confidence;
ties keep the first).  `"10 chairs and 10 chairs"` yields one item with
quantity 10, not 20. -/
theorem parse_keeps_first_on_tie (msg : String) (s : String) :
    (∀ e ∈ parse_items_from_message msg, e ∈ matchLineItems (extract_line_items msg)) ∧
    (∀ h0 t, (matchLineItems (extract_line_items msg)).filter
        (fun i => i.sku == some s) = h0 :: t →
      (parse_items_from_message msg).filter (fun i => i.sku == some s) =
        [t.foldl (fun a b => if a.confidence < b.confidence then b else a) h0]) ∧
    parse_items_from_message "10 chairs and 10 chairs" =
      [⟨some "CHAIR-FOLD-WHT", 10, 1, "10 chairs", true, none⟩] := by
  obtain ⟨h1, _, h5⟩ := dedupItems_spec (matchLineItems (extract_line_items msg))
  refine ⟨h5, ?_, by decide⟩
  intro h0 t hft
  show fS s (dedupItems (matchLineItems (extract_line_items msg))) =
    [t.foldl (fun a b => if a.confidence < b.confidence then b else a) h0]
  rw [h1 s]
  show skuFold (fS s (matchLineItems (extract_line_items msg))) = _
  rw [show fS s (matchLineItems (extract_line_items msg)) = h0 :: t from hft]
  rfl

/-- C10 witness. -/
theorem parse_keeps_first_on_tie_witness :
    parse_items_from_message "10 chairs and 10 chairs" =
      [⟨some "CHAIR-FOLD-WHT", 10, 1, "10 chairs", true, none⟩] :=
  (parse_keeps_first_on_tie "10 chairs and 10 chairs" "CHAIR-FOLD-WHT").2.2


/-! ### C9 analysis: character and list utilities -/

theorem lowerC_idem (c : Char) : lowerC (lowerC c) = lowerC c := by
  by_cases h : 'A' ≤ c ∧ c ≤ 'Z'
  · obtain ⟨h1, h2⟩ := h
    have h1' : 65 ≤ c.toNat := h1
    have h2' : c.toNat ≤ 90 := h2
    have hc : c = Char.ofNat c.toNat := (Char.ofNat_toNat c).symm
    rw [hc]
    interval_cases h : c.toNat <;> decide
  · simp [lowerC, h]

theorem ws_not_word {c : Char} (h : isWsC c = true) : isWordC c = false := by
  simp only [isWsC, Bool.or_eq_true, decide_eq_true_eq] at h
  rcases h with ((((rfl | rfl) | rfl) | rfl) | rfl) | rfl <;> decide

theorem ws_not_digit {c : Char} (h : isWsC c = true) : isDigitC c = false := by
  simp only [isWsC, Bool.or_eq_true, decide_eq_true_eq] at h
  rcases h with ((((rfl | rfl) | rfl) | rfl) | rfl) | rfl <;> decide

theorem digit_not_ws {c : Char} (h : isDigitC c = true) : isWsC c = false := by
  by_contra hb
  have hw : isWsC c = true := by revert hb; cases isWsC c <;> simp
  rw [ws_not_digit hw] at h
  exact Bool.false_ne_true h

theorem scanGo_skip (check : List Char → Option Nat) (rep : List Char) :
    ∀ n l, scanGo check rep n l = scanGo check rep 0 (l.drop n) := by
  intro n
  induction n with
  | zero => intro l; simp
  | succ n ih =>
    intro l
    cases l with
    | nil => simp [scanGo]
    | cons c cs => simpa [scanGo] using ih cs

theorem drop_takeWhile_len (p : Char → Bool) :
    ∀ l : List Char, l.drop (l.takeWhile p).length = l.dropWhile p := by
  intro l
  induction l with
  | nil => simp
  | cons c cs ih =>
    by_cases h : p c
    · simpa [List.takeWhile_cons, List.dropWhile_cons, h] using ih
    · simp [List.takeWhile_cons, List.dropWhile_cons, h]

theorem head_dropWhile_not (p : Char → Bool) :
    ∀ (l : List Char) c, (l.dropWhile p).head? = some c → p c = false := by
  intro l
  induction l with
  | nil => intro c h; simp at h
  | cons a cs ih =>
    intro c h
    by_cases ha : p a
    · exact ih c (by simpa [List.dropWhile_cons, ha] using h)
    · have : a = c := by simpa [List.dropWhile_cons, ha] using h
      rw [← this]
      simpa using ha

theorem dropWhile_idem (p : Char → Bool) (l : List Char) :
    (l.dropWhile p).dropWhile p = l.dropWhile p := by
  induction l with
  | nil => simp
  | cons c cs ih =>
    by_cases h : p c
    · simpa [List.dropWhile_cons, h] using ih
    · simp [List.dropWhile_cons, h]

theorem headFalse_dropWhile (p : Char → Bool) :
    ∀ l : List Char, (∀ c, l.head? = some c → p c = false) → l.dropWhile p = l := by
  intro l h
  cases l with
  | nil => rfl
  | cons c cs => simp [List.dropWhile_cons, h c rfl]

theorem dropWhile_append_all {p : Char → Bool} {a : List Char}
    (ha : ∀ c ∈ a, p c = true) (b : List Char) :
    (a ++ b).dropWhile p = b.dropWhile p := by
  induction a with
  | nil => simp
  | cons c cs ih =>
    have hc := ha c (by simp)
    have ih' := ih (fun d hd => ha d (by simp [hd]))
    simpa [List.dropWhile_cons, hc] using ih'

theorem dropWhile_append_ne {p : Char → Bool} {a : List Char}
    (ha : a.dropWhile p ≠ []) (b : List Char) :
    (a ++ b).dropWhile p = a.dropWhile p ++ b := by
  induction a with
  | nil => simp at ha
  | cons c cs ih =>
    by_cases hc : p c
    · have ha' : cs.dropWhile p ≠ [] := by simpa [List.dropWhile_cons, hc] using ha
      simpa [List.dropWhile_cons, hc] using ih ha'
    · simp [List.dropWhile_cons, hc]

theorem suffix_append_cases {t b : List Char} :
    ∀ a : List Char, t <:+ a ++ b →
      t <:+ b ∨ ∃ a', a' <:+ a ∧ a' ≠ [] ∧ t = a' ++ b := by
  intro a
  induction a with
  | nil => intro h; exact Or.inl (by simpa using h)
  | cons c cs ih =>
    intro h
    rcases List.suffix_cons_iff.mp h with h | h
    · exact Or.inr ⟨c :: cs, List.suffix_refl _, by simp, h⟩
    · rcases ih h with h | ⟨a', ha1, ha2, ha3⟩
      · exact Or.inl h
      · exact Or.inr ⟨a', ha1.trans (List.suffix_cons c cs), ha2, ha3⟩

theorem wbAfter_append_ws {w : List Char} (hw : ∀ c ∈ w, isWsC c = true) :
    ∀ x, wbAfter x = true → wbAfter (x ++ w) = true := by
  intro x hx
  cases x with
  | nil =>
    cases w with
    | nil => simp [wbAfter]
    | cons c cs =>
      have := ws_not_word (hw c (by simp))
      simp [wbAfter, this]
  | cons c cs => simpa [wbAfter] using hx

theorem NoMat_suffix {chk : List Char → Option Nat} {l t : List Char}
    (h : NoMat chk l) (hs : t <:+ l) : NoMat chk t :=
  fun c cs hcs hc => h c cs (hcs.trans hs) hc


/-! ### C9 analysis: soundness of the scanner for `Rew` -/

theorem scanGo_zero_cons (check : List Char → Option Nat) (rep : List Char)
    (c : Char) (cs : List Char) :
    scanGo check rep 0 (c :: cs) =
      if isDigitC c then
        match check ((c :: cs).dropWhile isDigitC) with
        | some k =>
          ((c :: cs).takeWhile isDigitC ++ rep) ++
            scanGo check rep (((c :: cs).takeWhile isDigitC).length + k - 1) cs
        | none => c :: scanGo check rep 0 cs
      else c :: scanGo check rep 0 cs := rfl

theorem scanSub_rew {check : List Char → Option Nat} {rep : List Char}
    (Hchk : ∀ x k, check x = some k → 1 ≤ k ∧ k ≤ x.length) :
    ∀ n l, l.length ≤ n → Rew check rep l (scanSub check rep l) := by
  intro n
  induction n with
  | zero =>
    intro l hl
    have hl' : l = [] := List.length_eq_zero.mp (Nat.le_zero.mp hl)
    subst hl'
    exact Rew.nil
  | succ n ih =>
    intro l hl
    cases l with
    | nil => exact Rew.nil
    | cons c cs =>
      have hcs : cs.length ≤ n := by simp at hl; omega
      by_cases hc : isDigitC c
      · cases hchk : check ((c :: cs).dropWhile isDigitC) with
        | none =>
          have hchk' : check (List.dropWhile isDigitC cs) = none := by
            simpa [List.dropWhile_cons, hc] using hchk
          have heq : scanSub check rep (c :: cs) = c :: scanSub check rep cs := by
            show scanGo check rep 0 (c :: cs) = _
            rw [scanGo_zero_cons]
            simp [hc, hchk', scanSub]
          rw [heq]
          exact Rew.keep c cs _ (fun _ => hchk) (ih cs hcs)
        | some k =>
          obtain ⟨hk1, hk2⟩ := Hchk _ _ hchk
          have hds_ne : (c :: cs).takeWhile isDigitC ≠ [] := by
            simp [List.takeWhile_cons, hc]
          have hds_len : 1 ≤ ((c :: cs).takeWhile isDigitC).length :=
            List.length_pos.mpr hds_ne
          have hsplit : (c :: cs).takeWhile isDigitC ++ (c :: cs).dropWhile isDigitC
              = c :: cs := List.takeWhile_append_dropWhile _ _
          have hMz : ((c :: cs).dropWhile isDigitC).take k ++
              ((c :: cs).dropWhile isDigitC).drop k = (c :: cs).dropWhile isDigitC :=
            List.take_append_drop _ _
          have hM_len : (((c :: cs).dropWhile isDigitC).take k).length = k := by
            rw [List.length_take]
            omega
          have hM_ne : ((c :: cs).dropWhile isDigitC).take k ≠ [] := by
            intro hnil
            rw [hnil] at hM_len
            simp at hM_len
            omega
          have hM_head : ∃ c' M', ((c :: cs).dropWhile isDigitC).take k = c' :: M' ∧
              isDigitC c' = false := by
            cases hM' : ((c :: cs).dropWhile isDigitC).take k with
            | nil => exact absurd hM' hM_ne
            | cons c' M' =>
              refine ⟨c', M', rfl, ?_⟩
              have hh : ((c :: cs).dropWhile isDigitC).head? = some c' := by
                rw [← hMz, hM']
                simp
              exact head_dropWhile_not _ _ _ hh
          have hcheckMz : check (((c :: cs).dropWhile isDigitC).take k ++
              ((c :: cs).dropWhile isDigitC).drop k) = some k := by
            rw [hMz]; exact hchk
          have hzdrop : cs.drop (((c :: cs).takeWhile isDigitC).length + k - 1) =
              ((c :: cs).dropWhile isDigitC).drop k := by
            have h1 : (c :: cs).drop ((c :: cs).takeWhile isDigitC).length =
                (c :: cs).dropWhile isDigitC := drop_takeWhile_len _ _
            have h2 : ((c :: cs).dropWhile isDigitC).drop k =
                (c :: cs).drop (((c :: cs).takeWhile isDigitC).length + k) := by
              rw [← h1, List.drop_drop]
            rw [h2]
            have h3 : ((c :: cs).takeWhile isDigitC).length + k =
                (((c :: cs).takeWhile isDigitC).length + k - 1) + 1 := by omega
            conv_rhs => rw [h3]
            rw [List.drop_succ_cons]
          have hscan : scanSub check rep (c :: cs) =
              ((c :: cs).takeWhile isDigitC ++ rep) ++
                scanSub check rep (((c :: cs).dropWhile isDigitC).drop k) := by
            show scanGo check rep 0 (c :: cs) = _
            rw [scanGo_zero_cons]
            simp only [hc, if_true, hchk]
            rw [scanGo_skip, hzdrop]
            rfl
          have hzlen : (((c :: cs).dropWhile isDigitC).drop k).length ≤ n := by
            have hdw : ((c :: cs).dropWhile isDigitC).length ≤ (c :: cs).length :=
              (List.dropWhile_sublist _).length_le
            simp only [List.length_drop]
            simp at hl hdw
            omega
          have hin : c :: cs = (c :: cs).takeWhile isDigitC ++
              ((c :: cs).dropWhile isDigitC).take k ++
              ((c :: cs).dropWhile isDigitC).drop k := by
            rw [List.append_assoc, hMz, hsplit]
          have hgoal := Rew.sub ((c :: cs).takeWhile isDigitC)
            (((c :: cs).dropWhile isDigitC).take k)
            (((c :: cs).dropWhile isDigitC).drop k)
            (scanSub check rep (((c :: cs).dropWhile isDigitC).drop k)) k hds_ne
            (fun d hd => List.mem_takeWhile_imp hd) hM_head hcheckMz
            (ih _ hzlen)
          rw [← hin] at hgoal
          rw [hscan]
          exact hgoal
      · have heq : scanSub check rep (c :: cs) = c :: scanSub check rep cs := by
          show scanGo check rep 0 (c :: cs) = _
          rw [scanGo_zero_cons]
          simp [hc, scanSub]
        rw [heq]
        exact Rew.keep c cs _ (fun h => absurd h (by simp [hc])) (ih cs hcs)

theorem scanSub_rew_self {check : List Char → Option Nat} {rep : List Char}
    (Hchk : ∀ x k, check x = some k → 1 ≤ k ∧ k ≤ x.length) (l : List Char) :
    Rew check rep l (scanSub check rep l) :=
  scanSub_rew Hchk l.length l le_rfl

/-! ### C9 analysis: the sync interface for `Rew` and `CRew` -/

theorem rew_sync {check : List Char → Option Nat} {rep : List Char} :
    ∀ {x x'}, Rew check rep x x' → ∀ p y',
      (∀ c ∈ p, isDigitC c = false ∧ isWsC c = false) → x' = p ++ y' →
      ∃ y, x = p ++ y ∧ Rew check rep y y' := by
  intro x x' hr
  induction hr with
  | nil =>
    intro p y' hp he
    obtain ⟨hp0, hy0⟩ := List.append_eq_nil.mp he.symm
    subst hp0; subst hy0
    exact ⟨[], rfl, Rew.nil⟩
  | keep c l m hck rel ih =>
    intro p y' hp he
    cases p with
    | nil =>
      refine ⟨c :: l, rfl, ?_⟩
      simp at he
      rw [← he]
      exact Rew.keep c l m hck rel
    | cons q p' =>
      have hq : c = q := by injection he
      have hm : m = p' ++ y' := by injection he
      obtain ⟨y, hy1, hy2⟩ := ih p' y' (fun d hd => hp d (by simp [hd])) hm
      subst hq
      exact ⟨y, by simp [hy1], hy2⟩
  | sub ds M z m k hds hdig hMh hch rel ih =>
    intro p y' hp he
    cases p with
    | nil =>
      refine ⟨ds ++ M ++ z, rfl, ?_⟩
      simp only [List.nil_append] at he
      rw [← he]
      exact Rew.sub ds M z m k hds hdig hMh hch rel
    | cons q p' =>
      obtain ⟨d, ds', rfl⟩ := List.exists_cons_of_ne_nil hds
      have he' : d :: (ds' ++ rep ++ m) = q :: (p' ++ y') := by simpa using he
      have hq : d = q := by injection he'
      have hqd : isDigitC q = true := hq ▸ hdig d (by simp)
      have := (hp q (by simp)).1
      rw [this] at hqd
      exact absurd hqd (by simp)

theorem rew_wb {check : List Char → Option Nat} {rep : List Char} :
    ∀ {x x'}, Rew check rep x x' → wbAfter x = wbAfter x' := by
  intro x x' hr
  cases hr with
  | nil => rfl
  | keep c l m hck rel => rfl
  | sub ds M z m k hds hdig hMh hch rel =>
    obtain ⟨d, ds', rfl⟩ := List.exists_cons_of_ne_nil hds
    rfl

theorem rew_wsdrop {check : List Char → Option Nat} {rep : List Char} :
    ∀ {x x'}, Rew check rep x x' →
      Rew check rep (x.dropWhile isWsC) (x'.dropWhile isWsC) := by
  intro x x' hr
  induction hr with
  | nil => simpa using Rew.nil
  | keep c l m hck rel ih =>
    by_cases hw : isWsC c
    · simpa [List.dropWhile_cons, hw] using ih
    · simpa [List.dropWhile_cons, hw] using Rew.keep c l m hck rel
  | sub ds M z m k hds hdig hMh hch rel ih =>
    obtain ⟨d, ds', rfl⟩ := List.exists_cons_of_ne_nil hds
    have hw : isWsC d = false := digit_not_ws (hdig d (by simp))
    simpa [List.cons_append, List.dropWhile_cons, hw]
      using Rew.sub (d :: ds') M z m k hds hdig hMh hch rel

theorem syncOK_rew (check : List Char → Option Nat) (rep : List Char) :
    SyncOK (Rew check rep) :=
  ⟨fun _ _ h p y' hp he => rew_sync h p y' hp he,
   fun _ _ h => rew_wb h,
   fun _ _ h => rew_wsdrop h⟩


theorem crew_head_nonws {l m : List Char} (hr : CRew l m)
    (h : ∀ c, l.head? = some c → isWsC c = false) :
    ∀ c, m.head? = some c → isWsC c = false := by
  cases hr with
  | nil => intro c hc; simp at hc
  | keep c l m hnw rel =>
    intro d hd
    simp at hd
    rw [← hd]
    exact hnw
  | wsb w l m hwne hall hhead rel =>
    obtain ⟨c, w', rfl⟩ := List.exists_cons_of_ne_nil hwne
    have hh : isWsC c = false := h c (by simp)
    exact absurd (hall c (by simp)) (by simp [hh])

theorem crew_sync : ∀ {x x'}, CRew x x' → ∀ p y',
    (∀ c ∈ p, isDigitC c = false ∧ isWsC c = false) → x' = p ++ y' →
    ∃ y, x = p ++ y ∧ CRew y y' := by
  intro x x' hr
  induction hr with
  | nil =>
    intro p y' hp he
    obtain ⟨hp0, hy0⟩ := List.append_eq_nil.mp he.symm
    subst hp0; subst hy0
    exact ⟨[], rfl, CRew.nil⟩
  | keep c l m hnw rel ih =>
    intro p y' hp he
    cases p with
    | nil =>
      refine ⟨c :: l, rfl, ?_⟩
      simp at he
      rw [← he]
      exact CRew.keep c l m hnw rel
    | cons q p' =>
      have hq : c = q := by injection he
      have hm : m = p' ++ y' := by injection he
      obtain ⟨y, hy1, hy2⟩ := ih p' y' (fun d hd => hp d (by simp [hd])) hm
      subst hq
      exact ⟨y, by simp [hy1], hy2⟩
  | wsb w l m hwne hall hhead rel ih =>
    intro p y' hp he
    cases p with
    | nil =>
      refine ⟨w ++ l, rfl, ?_⟩
      simp only [List.nil_append] at he
      rw [← he]
      exact CRew.wsb w l m hwne hall hhead rel
    | cons q p' =>
      have hq : ' ' = q := by injection he
      have := (hp q (by simp)).2
      rw [← hq] at this
      exact absurd this (by decide)

theorem crew_wb : ∀ {x x'}, CRew x x' → wbAfter x = wbAfter x' := by
  intro x x' hr
  cases hr with
  | nil => rfl
  | keep c l m hnw rel => rfl
  | wsb w l m hwne hall hhead rel =>
    obtain ⟨c, w', rfl⟩ := List.exists_cons_of_ne_nil hwne
    have h1 : isWordC c = false := ws_not_word (hall c (by simp))
    show wbAfter (c :: (w' ++ l)) = wbAfter (' ' :: m)
    simp only [wbAfter, h1]
    decide

theorem crew_wsdrop : ∀ {x x'}, CRew x x' →
    CRew (x.dropWhile isWsC) (x'.dropWhile isWsC) := by
  intro x x' hr
  induction hr with
  | nil => simpa using CRew.nil
  | keep c l m hnw rel ih =>
    simpa [List.dropWhile_cons, hnw] using CRew.keep c l m hnw rel
  | wsb w l m hwne hall hhead rel ih =>
    have h1 : (w ++ l).dropWhile isWsC = l.dropWhile isWsC := dropWhile_append_all hall l
    have h2 : l.dropWhile isWsC = l := headFalse_dropWhile _ _ hhead
    have h3 : (' ' :: m).dropWhile isWsC = m.dropWhile isWsC := by
      simp [List.dropWhile_cons, show isWsC ' ' = true from by decide]
    have h4 : m.dropWhile isWsC = m := headFalse_dropWhile _ _ (crew_head_nonws rel hhead)
    rw [h1, h2, h3, h4]
    exact rel

theorem syncOK_crew : SyncOK CRew :=
  ⟨fun _ _ h p y' hp he => crew_sync h p y' hp he,
   fun _ _ h => crew_wb h,
   fun _ _ h => crew_wsdrop h⟩

/-! ### C9 analysis: failure of each check is stable under related rewrites -/

theorem stab_chkQuote {R : List Char → List Char → Prop} (hS : SyncOK R)
    {x x' : List Char} (hr : R x x') (h : chkQuote x = none) : chkQuote x' = none := by
  cases hx' : x' with
  | nil => rfl
  | cons q t' =>
    by_cases hq : q = '"' ∨ q = '”' ∨ q = '“'
    · exfalso
      have hcond : ∀ c ∈ [q], isDigitC c = false ∧ isWsC c = false := by
        intro c hc
        simp at hc
        subst hc
        rcases hq with rfl | rfl | rfl <;> exact ⟨by decide, by decide⟩
      obtain ⟨y, hy, -⟩ := hS.1 x x' hr [q] t' hcond (by simp [hx'])
      rw [hy] at h
      simp [chkQuote, hq] at h
    · simp [chkQuote, hq]

theorem stab_chkDashInch {R : List Char → List Char → Prop} (hS : SyncOK R)
    {x x' : List Char} (hr : R x x') (h : chkDashInch x = none) :
    chkDashInch x' = none := by
  by_cases hp : ['-','i','n','c','h'].isPrefixOf x'
  · exfalso
    obtain ⟨t', ht⟩ := List.isPrefixOf_iff_prefix.mp hp
    obtain ⟨y, hy, -⟩ := hS.1 x x' hr _ t' (by decide) ht.symm
    rw [hy] at h
    have hpre : ['-','i','n','c','h'].isPrefixOf (['-','i','n','c','h'] ++ y) :=
      List.isPrefixOf_iff_prefix.mpr (List.prefix_append _ _)
    simp [chkDashInch, hpre] at h
  · simp [chkDashInch, hp]

theorem stab_chkDashFoot {R : List Char → List Char → Prop} (hS : SyncOK R)
    {x x' : List Char} (hr : R x x') (h : chkDashFoot x = none) :
    chkDashFoot x' = none := by
  by_cases hp : ['-','f','o','o','t'].isPrefixOf x'
  · exfalso
    obtain ⟨t', ht⟩ := List.isPrefixOf_iff_prefix.mp hp
    obtain ⟨y, hy, -⟩ := hS.1 x x' hr _ t' (by decide) ht.symm
    rw [hy] at h
    have hpre : ['-','f','o','o','t'].isPrefixOf (['-','f','o','o','t'] ++ y) :=
      List.isPrefixOf_iff_prefix.mpr (List.prefix_append _ _)
    simp [chkDashFoot, hpre] at h
  · simp [chkDashFoot, hp]

theorem stab_chkInB {R : List Char → List Char → Prop} (hS : SyncOK R)
    {x x' : List Char} (hr : R x x') (h : chkInB x = none) : chkInB x' = none := by
  by_cases hp : ['i','n'].isPrefixOf x' ∧ wbAfter (x'.drop 2)
  · exfalso
    obtain ⟨hp1, hp2⟩ := hp
    obtain ⟨t', ht⟩ := List.isPrefixOf_iff_prefix.mp hp1
    obtain ⟨y, hy, hyr⟩ := hS.1 x x' hr _ t' (by decide) ht.symm
    have hd' : x'.drop 2 = t' := by rw [← ht]; rfl
    have hwby : wbAfter y = true := by
      rw [hS.2.1 y t' hyr, ← hd']
      exact hp2
    have hnone : chkInB x ≠ none := by
      rw [hy]
      have hpre : ['i','n'].isPrefixOf (['i','n'] ++ y) :=
        List.isPrefixOf_iff_prefix.mpr (List.prefix_append _ _)
      have hdr : (['i','n'] ++ y).drop 2 = y := rfl
      simp [chkInB, hpre, hdr, hwby]
    exact hnone h
  · rw [chkInB, if_neg hp]

theorem stab_chkFtB {R : List Char → List Char → Prop} (hS : SyncOK R)
    {x x' : List Char} (hr : R x x') (h : chkFtB x = none) : chkFtB x' = none := by
  by_cases hp : ['f','t'].isPrefixOf x' ∧ wbAfter (x'.drop 2)
  · exfalso
    obtain ⟨hp1, hp2⟩ := hp
    obtain ⟨t', ht⟩ := List.isPrefixOf_iff_prefix.mp hp1
    obtain ⟨y, hy, hyr⟩ := hS.1 x x' hr _ t' (by decide) ht.symm
    have hd' : x'.drop 2 = t' := by rw [← ht]; rfl
    have hwby : wbAfter y = true := by
      rw [hS.2.1 y t' hyr, ← hd']
      exact hp2
    have hnone : chkFtB x ≠ none := by
      rw [hy]
      have hpre : ['f','t'].isPrefixOf (['f','t'] ++ y) :=
        List.isPrefixOf_iff_prefix.mpr (List.prefix_append _ _)
      have hdr : (['f','t'] ++ y).drop 2 = y := rfl
      simp [chkFtB, hpre, hdr, hwby]
    exact hnone h
  · rw [chkFtB, if_neg hp]

theorem chkWsFt_none_iff (l : List Char) :
    chkWsFt l = none ↔
      ¬(['f','t'].isPrefixOf (l.dropWhile isWsC) ∧
        wbAfter ((l.dropWhile isWsC).drop 2)) := by
  have h1 : l.drop (l.takeWhile isWsC).length = l.dropWhile isWsC :=
    drop_takeWhile_len _ _
  have h2 : l.drop ((l.takeWhile isWsC).length + 2) = (l.dropWhile isWsC).drop 2 := by
    rw [← h1, List.drop_drop]
  simp only [chkWsFt, h1, h2]
  constructor
  · intro h hc
    rw [if_pos hc] at h
    exact Option.some_ne_none _ h
  · intro h
    rw [if_neg h]

theorem stab_chkWsFt {R : List Char → List Char → Prop} (hS : SyncOK R)
    {x x' : List Char} (hr : R x x') (h : chkWsFt x = none) : chkWsFt x' = none := by
  rw [chkWsFt_none_iff] at h ⊢
  rintro ⟨hp1, hp2⟩
  apply h
  have hdr : R (x.dropWhile isWsC) (x'.dropWhile isWsC) := hS.2.2 x x' hr
  obtain ⟨t', ht⟩ := List.isPrefixOf_iff_prefix.mp hp1
  obtain ⟨y, hy, hyr⟩ := hS.1 _ _ hdr _ t' (by decide) ht.symm
  constructor
  · rw [hy]
    exact List.isPrefixOf_iff_prefix.mpr (List.prefix_append _ _)
  · rw [hy]
    have hdy : ((['f','t'] : List Char) ++ y).drop 2 = y := rfl
    have hdt : ((['f','t'] : List Char) ++ t').drop 2 = t' := rfl
    rw [hdy, hS.2.1 y t' hyr]
    rw [← ht, hdt] at hp2
    exact hp2


/-! ### C9 analysis: transfer of `NoMat` through the rewrites -/

theorem rew_run {check chk : List Char → Option Nat} {rep : List Char}
    (Hstab : ∀ {x x'}, Rew check rep x x' → chk x = none → chk x' = none)
    (Hrep : ∀ z, chk (rep ++ z) = none)
    (Hrepnd : ∃ r rs, rep = r :: rs ∧ isDigitC r = false) :
    ∀ {l m}, Rew check rep l m → chk (l.dropWhile isDigitC) = none →
      chk (m.dropWhile isDigitC) = none := by
  intro l m hr
  induction hr with
  | nil => intro h; simpa using h
  | keep c l m hck rel ih =>
    intro h
    by_cases hc : isDigitC c
    · rw [List.dropWhile_cons] at h ⊢
      simp only [hc, if_true] at h ⊢
      exact ih h
    · rw [List.dropWhile_cons] at h ⊢
      simp only [hc, if_false] at h ⊢
      exact Hstab (Rew.keep c l m hck rel) h
  | sub ds M z m k hds hdig hMh hch rel ih =>
    intro h
    obtain ⟨r, rs, hrep, hrd⟩ := Hrepnd
    have h2 : ((ds ++ rep) ++ m).dropWhile isDigitC = rep ++ m := by
      rw [List.append_assoc, dropWhile_append_all hdig]
      rw [hrep]
      simp [List.cons_append, List.dropWhile_cons, hrd]
    rw [h2]
    exact Hrep m

theorem rew_NoMat_self {check : List Char → Option Nat} {rep : List Char}
    (Hstab : ∀ {x x'}, Rew check rep x x' → check x = none → check x' = none)
    (Hrep : ∀ z, check (rep ++ z) = none)
    (Hrepnd : ∃ r rs, rep = r :: rs ∧ isDigitC r = false)
    (Hrepdig : ∀ c ∈ rep, isDigitC c = false) :
    ∀ {l m}, Rew check rep l m → NoMat check m := by
  intro l m hr
  induction hr with
  | nil =>
    intro c cs hsuf
    rw [List.suffix_nil] at hsuf
    simp at hsuf
  | keep c l m hck rel ih =>
    intro a as hsuf ha
    rcases List.suffix_cons_iff.mp hsuf with heq | hsuf'
    · have h1 : a = c := by injection heq
      have h2 : as = m := by injection heq
      subst h1; subst h2
      have hin : check ((a :: l).dropWhile isDigitC) = none := hck ha
      rw [List.dropWhile_cons] at hin ⊢
      simp only [ha, if_true] at hin ⊢
      exact rew_run (fun hr h => Hstab hr h) Hrep Hrepnd rel hin
    · exact ih a as hsuf' ha
  | sub ds M z m k hds hdig hMh hch rel ih =>
    intro a as hsuf ha
    rcases suffix_append_cases (ds ++ rep) hsuf with hsm | ⟨a', ha1, ha2, ha3⟩
    · exact ih a as hsm ha
    · rcases suffix_append_cases ds ha1 with hsr | ⟨d', hd1, hd2, hd3⟩
      · obtain ⟨q, qs, rfl⟩ := List.exists_cons_of_ne_nil ha2
        have hqa : a = q := by injection ha3
        have hmem : q ∈ rep := hsr.subset (by simp)
        rw [← hqa] at hmem
        rw [Hrepdig a hmem] at ha
        exact absurd ha (by simp)
      · have hd'dig : ∀ x ∈ d', isDigitC x = true := fun x hx => hdig x (hd1.subset hx)
        rw [ha3, hd3]
        obtain ⟨r, rs, hrep, hrd⟩ := Hrepnd
        have hdw : ((d' ++ rep) ++ m).dropWhile isDigitC = rep ++ m := by
          rw [List.append_assoc, dropWhile_append_all hd'dig, hrep]
          simp [List.cons_append, List.dropWhile_cons, hrd]
        rw [hdw]
        exact Hrep m

theorem rew_NoMat_other {check chk : List Char → Option Nat} {rep : List Char}
    (Hstab : ∀ {x x'}, Rew check rep x x' → chk x = none → chk x' = none)
    (Hrep : ∀ z, chk (rep ++ z) = none)
    (Hrepnd : ∃ r rs, rep = r :: rs ∧ isDigitC r = false)
    (Hrepdig : ∀ c ∈ rep, isDigitC c = false) :
    ∀ {l m}, Rew check rep l m → NoMat chk l → NoMat chk m := by
  intro l m hr
  induction hr with
  | nil =>
    intro _ c cs hsuf
    rw [List.suffix_nil] at hsuf
    simp at hsuf
  | keep c l m hck rel ih =>
    intro hno a as hsuf ha
    rcases List.suffix_cons_iff.mp hsuf with heq | hsuf'
    · have h1 : a = c := by injection heq
      have h2 : as = m := by injection heq
      subst h1; subst h2
      have hin : chk ((a :: l).dropWhile isDigitC) = none :=
        hno a l (List.suffix_refl _) ha
      rw [List.dropWhile_cons] at hin ⊢
      simp only [ha, if_true] at hin ⊢
      exact rew_run (fun hr h => Hstab hr h) Hrep Hrepnd rel hin
    · exact ih (NoMat_suffix hno (List.suffix_cons c l)) a as hsuf' ha
  | sub ds M z m k hds hdig hMh hch rel ih =>
    intro hno a as hsuf ha
    rcases suffix_append_cases (ds ++ rep) hsuf with hsm | ⟨a', ha1, ha2, ha3⟩
    · exact ih (NoMat_suffix hno (List.suffix_append (ds ++ M) z)) a as hsm ha
    · rcases suffix_append_cases ds ha1 with hsr | ⟨d', hd1, hd2, hd3⟩
      · obtain ⟨q, qs, rfl⟩ := List.exists_cons_of_ne_nil ha2
        have hqa : a = q := by injection ha3
        have hmem : q ∈ rep := hsr.subset (by simp)
        rw [← hqa] at hmem
        rw [Hrepdig a hmem] at ha
        exact absurd ha (by simp)
      · have hd'dig : ∀ x ∈ d', isDigitC x = true := fun x hx => hdig x (hd1.subset hx)
        rw [ha3, hd3]
        obtain ⟨r, rs, hrep, hrd⟩ := Hrepnd
        have hdw : ((d' ++ rep) ++ m).dropWhile isDigitC = rep ++ m := by
          rw [List.append_assoc, dropWhile_append_all hd'dig, hrep]
          simp [List.cons_append, List.dropWhile_cons, hrd]
        rw [hdw]
        exact Hrep m

theorem crew_run {chk : List Char → Option Nat}
    (Hstab : ∀ {x x'}, CRew x x' → chk x = none → chk x' = none) :
    ∀ {l m}, CRew l m → chk (l.dropWhile isDigitC) = none →
      chk (m.dropWhile isDigitC) = none := by
  intro l m hr
  induction hr with
  | nil => intro h; simpa using h
  | keep c l m hnw rel ih =>
    intro h
    by_cases hc : isDigitC c
    · rw [List.dropWhile_cons] at h ⊢
      simp only [hc, if_true] at h ⊢
      exact ih h
    · rw [List.dropWhile_cons] at h ⊢
      simp only [hc, if_false] at h ⊢
      exact Hstab (CRew.keep c l m hnw rel) h
  | wsb w l m hwne hall hhead rel ih =>
    intro h
    obtain ⟨c, w', rfl⟩ := List.exists_cons_of_ne_nil hwne
    have hcd : isDigitC c = false := ws_not_digit (hall c (by simp))
    have h1 : ((c :: w') ++ l).dropWhile isDigitC = (c :: w') ++ l := by
      simp [List.cons_append, List.dropWhile_cons, hcd]
    have h2 : (' ' :: m).dropWhile isDigitC = ' ' :: m := by
      simp [List.dropWhile_cons, show isDigitC ' ' = false from by decide]
    rw [h1] at h
    rw [h2]
    exact Hstab (CRew.wsb (c :: w') l m hwne hall hhead rel) h

theorem crew_NoMat {chk : List Char → Option Nat}
    (Hstab : ∀ {x x'}, CRew x x' → chk x = none → chk x' = none) :
    ∀ {l m}, CRew l m → NoMat chk l → NoMat chk m := by
  intro l m hr
  induction hr with
  | nil =>
    intro _ c cs hsuf
    rw [List.suffix_nil] at hsuf
    simp at hsuf
  | keep c l m hnw rel ih =>
    intro hno a as hsuf ha
    rcases List.suffix_cons_iff.mp hsuf with heq | hsuf'
    · have h1 : a = c := by injection heq
      have h2 : as = m := by injection heq
      subst h1; subst h2
      have hin : chk ((a :: l).dropWhile isDigitC) = none :=
        hno a l (List.suffix_refl _) ha
      rw [List.dropWhile_cons] at hin ⊢
      simp only [ha, if_true] at hin ⊢
      exact crew_run (fun hr h => Hstab hr h) rel hin
    · exact ih (NoMat_suffix hno (List.suffix_cons c l)) a as hsuf' ha
  | wsb w l m hwne hall hhead rel ih =>
    intro hno a as hsuf ha
    rcases List.suffix_cons_iff.mp hsuf with heq | hsuf'
    · have h1 : a = ' ' := by injection heq
      rw [h1] at ha
      exact absurd ha (by decide)
    · exact ih (NoMat_suffix hno (List.suffix_append w l)) a as hsuf' ha


/-! ### C9 analysis: whitespace collapse -/

theorem collapseGo_true_ws {w : List Char} (hall : ∀ c ∈ w, isWsC c = true) :
    ∀ rest, collapseGo true (w ++ rest) = collapseGo true rest := by
  induction w with
  | nil => intro rest; rfl
  | cons c w' ih =>
    intro rest
    have hc := hall c (by simp)
    have := ih (fun d hd => hall d (by simp [hd])) rest
    simpa [List.cons_append, collapseGo, hc] using this

theorem collapseGo_true_eq_false {rest : List Char}
    (hh : ∀ c, rest.head? = some c → isWsC c = false) :
    collapseGo true rest = collapseGo false rest := by
  cases rest with
  | nil => rfl
  | cons c cs =>
    have := hh c rfl
    simp [collapseGo, this]

theorem collapse_crew_bounded : ∀ n (l : List Char), l.length ≤ n →
    CRew l (collapseWs l) := by
  intro n
  induction n with
  | zero =>
    intro l hl
    have hl' : l = [] := List.length_eq_zero.mp (Nat.le_zero.mp hl)
    subst hl'
    exact CRew.nil
  | succ n ih =>
    intro l hl
    cases l with
    | nil => exact CRew.nil
    | cons c cs =>
      by_cases hw : isWsC c
      · have hwne : (c :: cs).takeWhile isWsC ≠ [] := by
          simp [List.takeWhile_cons, hw]
        have hallw : ∀ x ∈ (c :: cs).takeWhile isWsC, isWsC x = true :=
          fun x hx => List.mem_takeWhile_imp hx
        have hh : ∀ x, ((c :: cs).dropWhile isWsC).head? = some x → isWsC x = false :=
          fun x hx => head_dropWhile_not _ _ _ hx
        have hsplit : (c :: cs).takeWhile isWsC ++ (c :: cs).dropWhile isWsC =
            c :: cs := List.takeWhile_append_dropWhile _ _
        have hcw : collapseWs (c :: cs) =
            ' ' :: collapseWs ((c :: cs).dropWhile isWsC) := by
          show collapseGo false (c :: cs) = _
          conv_lhs => rw [← hsplit]
          obtain ⟨a, w', hw'⟩ := List.exists_cons_of_ne_nil hwne
          rw [hw']
          have haw : isWsC a = true := hallw a (by rw [hw']; simp)
          show collapseGo false (a :: (w' ++ (c :: cs).dropWhile isWsC)) = _
          simp only [collapseGo, haw, if_true]
          rw [collapseGo_true_ws (fun x hx => by
            rw [hw'] at hallw
            exact hallw x (by simp [hx]))]
          rw [collapseGo_true_eq_false hh]
          rfl
        have hlen : ((c :: cs).dropWhile isWsC).length ≤ n := by
          have h1 : ((c :: cs).takeWhile isWsC).length +
              ((c :: cs).dropWhile isWsC).length = (c :: cs).length := by
            rw [← List.length_append, hsplit]
          have h2 : 1 ≤ ((c :: cs).takeWhile isWsC).length :=
            List.length_pos.mpr hwne
          simp at hl h1
          omega
        rw [hcw]
        conv_lhs => rw [← hsplit]
        exact CRew.wsb _ _ _ hwne hallw hh (ih _ hlen)
      · have hcw : collapseWs (c :: cs) = c :: collapseWs cs := by
          show collapseGo false (c :: cs) = _
          simp [collapseWs, collapseGo, hw]
        have hnw : isWsC c = false := by simpa using hw
        rw [hcw]
        exact CRew.keep c cs _ hnw (ih cs (by simp at hl; omega))

theorem collapse_crew (l : List Char) : CRew l (collapseWs l) :=
  collapse_crew_bounded l.length l le_rfl

theorem WSP_tail {c : Char} {cs : List Char} (h : WSP (c :: cs)) : WSP cs := by
  cases cs with
  | nil => trivial
  | cons d t => exact h.2

theorem WSP_cons_nonws {c : Char} {X : List Char} (hc : isWsC c = false)
    (h : WSP X) : WSP (c :: X) := by
  cases X with
  | nil => intro hws; rw [hws] at hc; exact absurd hc (by simp)
  | cons d t => exact ⟨fun hws => absurd hws (by simp [hc]), h⟩

theorem WSP_cons_space {Y : List Char}
    (hh : ∀ d, Y.head? = some d → isWsC d = false) (h : WSP Y) : WSP (' ' :: Y) := by
  cases Y with
  | nil => intro _; rfl
  | cons d t => exact ⟨fun _ => ⟨rfl, hh d rfl⟩, h⟩

theorem collapseGo_head_nonws : ∀ (cs : List Char) d,
    (collapseGo true cs).head? = some d → isWsC d = false := by
  intro cs
  induction cs with
  | nil => intro d h; simp [collapseGo] at h
  | cons c t ih =>
    intro d h
    by_cases hw : isWsC c
    · exact ih d (by simpa [collapseGo, hw] using h)
    · have : c = d := by simpa [collapseGo, hw] using h
      rw [← this]
      simpa using hw

theorem WSP_collapseGo : ∀ (l : List Char) (b : Bool), WSP (collapseGo b l) := by
  intro l
  induction l with
  | nil => intro b; trivial
  | cons c cs ih =>
    intro b
    by_cases hw : isWsC c
    · cases b with
      | true => simpa [collapseGo, hw] using ih true
      | false =>
        have := WSP_cons_space (collapseGo_head_nonws cs) (ih true)
        simpa [collapseGo, hw] using this
    · have hc : isWsC c = false := by simpa using hw
      simpa [collapseGo, hw] using WSP_cons_nonws hc (ih false)

theorem WSP_append_right : ∀ a b : List Char, WSP (a ++ b) → WSP b := by
  intro a
  induction a with
  | nil => intro b h; exact h
  | cons c t ih => intro b h; exact ih b (WSP_tail h)

theorem WSP_append_left : ∀ a b : List Char, WSP (a ++ b) → WSP a := by
  intro a
  induction a with
  | nil => intro b h; trivial
  | cons c t ih =>
    intro b h
    cases t with
    | nil =>
      intro hws
      cases b with
      | nil => exact h hws
      | cons d u => exact (h.1 hws).1
    | cons d u => exact ⟨h.1, ih b (WSP_tail h)⟩

theorem collapseGo_eq_self : ∀ l, WSP l → collapseGo false l = l := by
  intro l
  induction l with
  | nil => intro h; rfl
  | cons c cs ih =>
    intro h
    by_cases hw : isWsC c
    · have hsp : c = ' ' := by
        cases cs with
        | nil => exact h hw
        | cons d t => exact (h.1 hw).1
      have hnext : ∀ x, cs.head? = some x → isWsC x = false := by
        intro x hx
        cases cs with
        | nil => simp at hx
        | cons d t =>
          have hdx : d = x := by simpa using hx
          rw [← hdx]
          exact (h.1 hw).2
      subst hsp
      simp only [collapseGo, hw, if_true]
      rw [collapseGo_true_eq_false hnext, ih (WSP_tail h)]
      rfl
    · have hc : isWsC c = false := by simpa using hw
      rw [show collapseGo false (c :: cs) = c :: collapseGo false cs from
        by simp [collapseGo, hc]]
      rw [ih (WSP_tail h)]

/-! ### C9 analysis: stripping -/

theorem rstrip_decomp (l : List Char) :
    ∃ w, rstripWs l ++ w = l ∧ ∀ c ∈ w, isWsC c = true := by
  refine ⟨(l.reverse.takeWhile isWsC).reverse, ?_, ?_⟩
  · show (l.reverse.dropWhile isWsC).reverse ++ (l.reverse.takeWhile isWsC).reverse = l
    rw [← List.reverse_append, List.takeWhile_append_dropWhile, List.reverse_reverse]
  · intro c hc
    rw [List.mem_reverse] at hc
    exact List.mem_takeWhile_imp hc

theorem lstrip_suffix (l : List Char) : lstripWs l <:+ l :=
  ⟨l.takeWhile isWsC, List.takeWhile_append_dropWhile _ _⟩

theorem NoMat_lstrip {chk : List Char → Option Nat} {l : List Char}
    (h : NoMat chk l) : NoMat chk (lstripWs l) :=
  NoMat_suffix h (lstrip_suffix l)

theorem NoMat_rstrip {chk : List Char → Option Nat}
    (Hnil : chk [] = none)
    (Hext : ∀ x w, (∀ c ∈ w, isWsC c = true) → chk (x ++ w) = none → chk x = none)
    {l : List Char} (h : NoMat chk l) : NoMat chk (rstripWs l) := by
  obtain ⟨w, hsplit, hws⟩ := rstrip_decomp l
  intro c cs hsuf hc
  have hsuf2 : (c :: cs) ++ w <:+ l := by
    rw [← hsplit]
    obtain ⟨t, ht⟩ := hsuf
    exact ⟨t, by rw [← List.append_assoc, ht]⟩
  have hin : chk ((c :: (cs ++ w)).dropWhile isDigitC) = none :=
    h c (cs ++ w) (by simpa using hsuf2) hc
  by_cases hy : (c :: cs).dropWhile isDigitC = []
  · have hall : ∀ x ∈ c :: cs, isDigitC x = true := by
      intro x hx
      exact List.dropWhile_eq_nil_iff.mp hy x hx
    have h1 : (c :: (cs ++ w)).dropWhile isDigitC = w.dropWhile isDigitC := by
      have he : (c :: (cs ++ w)) = (c :: cs) ++ w := by simp
      rw [he, dropWhile_append_all hall]
    have h2 : w.dropWhile isDigitC = w :=
      headFalse_dropWhile _ _ (fun x hx =>
        ws_not_digit (hws x (List.mem_of_mem_head? hx)))
    rw [h1, h2] at hin
    rw [hy]
    exact Hnil
  · have h1 : (c :: (cs ++ w)).dropWhile isDigitC =
        (c :: cs).dropWhile isDigitC ++ w := by
      have he : (c :: (cs ++ w)) = (c :: cs) ++ w := by simp
      rw [he, dropWhile_append_ne hy]
    rw [h1] at hin
    exact Hext _ w hws hin

theorem NoMat_strip {chk : List Char → Option Nat}
    (Hnil : chk [] = none)
    (Hext : ∀ x w, (∀ c ∈ w, isWsC c = true) → chk (x ++ w) = none → chk x = none)
    {l : List Char} (h : NoMat chk l) : NoMat chk (stripWs l) :=
  NoMat_rstrip Hnil Hext (NoMat_lstrip h)

theorem lstrip_eq_self {l : List Char}
    (h : ∀ c, l.head? = some c → isWsC c = false) : lstripWs l = l :=
  headFalse_dropWhile _ _ h

theorem rstrip_idem (l : List Char) : rstripWs (rstripWs l) = rstripWs l := by
  simp only [rstripWs, List.reverse_reverse]
  rw [dropWhile_idem]

theorem rstrip_head (l : List Char) :
    ∀ c, (rstripWs l).head? = some c → l.head? = some c := by
  obtain ⟨w, hsplit, -⟩ := rstrip_decomp l
  intro c h
  rw [← hsplit]
  cases hr : rstripWs l with
  | nil => rw [hr] at h; simp at h
  | cons a t =>
    rw [hr] at h
    have hac : a = c := by simpa using h
    rw [hac]
    simp

theorem strip_idem (l : List Char) : stripWs (stripWs l) = stripWs l := by
  simp only [stripWs]
  have h1 : lstripWs (rstripWs (lstripWs l)) = rstripWs (lstripWs l) := by
    apply lstrip_eq_self
    intro c hc
    exact head_dropWhile_not _ _ _ (rstrip_head _ c hc)
  rw [h1, rstrip_idem]

theorem WSP_strip {l : List Char} (h : WSP l) : WSP (stripWs l) := by
  have h1 : WSP (lstripWs l) := by
    obtain ⟨a, ha⟩ := lstrip_suffix l
    rw [← ha] at h
    exact WSP_append_right a _ h
  obtain ⟨w, hsplit, -⟩ := rstrip_decomp (lstripWs l)
  rw [← hsplit] at h1
  exact WSP_append_left _ _ h1

theorem mem_strip {c : Char} {l : List Char} (h : c ∈ stripWs l) : c ∈ l := by
  simp only [stripWs, rstripWs, lstripWs] at h
  rw [List.mem_reverse] at h
  have h2 := (List.dropWhile_sublist _).subset h
  rw [List.mem_reverse] at h2
  exact (List.dropWhile_sublist _).subset h2

/-! ### C9 analysis: character preservation -/

theorem rew_mem {check : List Char → Option Nat} {rep : List Char} :
    ∀ {l m}, Rew check rep l m → ∀ c ∈ m, c ∈ l ∨ c ∈ rep := by
  intro l m hr
  induction hr with
  | nil => intro c hc; simp at hc
  | keep a l m hck rel ih =>
    intro c hc
    rcases List.mem_cons.mp hc with rfl | hc
    · exact Or.inl (by simp)
    · rcases ih c hc with h | h
      · exact Or.inl (by simp [h])
      · exact Or.inr h
  | sub ds M z m k hds hdig hMh hch rel ih =>
    intro c hc
    rcases List.mem_append.mp hc with hc | hc
    · rcases List.mem_append.mp hc with hc | hc
      · exact Or.inl (by simp [hc])
      · exact Or.inr hc
    · rcases ih c hc with h | h
      · exact Or.inl (by simp [h])
      · exact Or.inr h

theorem crew_mem : ∀ {l m}, CRew l m → ∀ c ∈ m, c ∈ l ∨ c = ' ' := by
  intro l m hr
  induction hr with
  | nil => intro c hc; simp at hc
  | keep a l m hnw rel ih =>
    intro c hc
    rcases List.mem_cons.mp hc with rfl | hc
    · exact Or.inl (by simp)
    · rcases ih c hc with h | h
      · exact Or.inl (by simp [h])
      · exact Or.inr h
  | wsb w l m hwne hall hhead rel ih =>
    intro c hc
    rcases List.mem_cons.mp hc with rfl | hc
    · exact Or.inr rfl
    · rcases ih c hc with h | h
      · exact Or.inl (by simp [h])
      · exact Or.inr h

theorem map_lowerC_id {l : List Char} (h : ∀ c ∈ l, lowerC c = c) :
    l.map lowerC = l := by
  induction l with
  | nil => rfl
  | cons c cs ih =>
    rw [List.map_cons, h c (by simp), ih (fun d hd => h d (by simp [hd]))]


/-! ### C9 analysis: fixpoint of the scanner under `NoMat` -/

theorem scanSub_eq_self {check : List Char → Option Nat} (rep : List Char) :
    ∀ l, NoMat check l → scanSub check rep l = l := by
  intro l
  induction l with
  | nil => intro h; rfl
  | cons c cs ih =>
    intro h
    have htail := ih (NoMat_suffix h (List.suffix_cons c cs))
    by_cases hc : isDigitC c
    · have hnone := h c cs (List.suffix_refl _) hc
      show scanGo check rep 0 (c :: cs) = c :: cs
      rw [scanGo_zero_cons]
      simp only [hc, if_true, hnone]
      rw [show scanGo check rep 0 cs = scanSub check rep cs from rfl, htail]
    · show scanGo check rep 0 (c :: cs) = c :: cs
      rw [scanGo_zero_cons]
      have hc' : isDigitC c = false := by simpa using hc
      rw [hc', if_neg Bool.false_ne_true]
      rw [show scanGo check rep 0 cs = scanSub check rep cs from rfl, htail]

/-! ### C9 analysis: per-check facts -/

theorem bnd_chkQuote : ∀ x k, chkQuote x = some k → 1 ≤ k ∧ k ≤ x.length := by
  intro x k h
  cases x with
  | nil => simp [chkQuote] at h
  | cons c t =>
    by_cases hq : c = '"' ∨ c = '”' ∨ c = '“'
    · simp [chkQuote, hq] at h
      simp [← h]
    · simp [chkQuote, hq] at h

theorem bnd_chkDashInch : ∀ x k, chkDashInch x = some k → 1 ≤ k ∧ k ≤ x.length := by
  intro x k h
  by_cases hp : ['-','i','n','c','h'].isPrefixOf x
  · have hlen := (List.isPrefixOf_iff_prefix.mp hp).length_le
    simp [chkDashInch, hp] at h
    simp at hlen
    omega
  · simp [chkDashInch, hp] at h

theorem bnd_chkDashFoot : ∀ x k, chkDashFoot x = some k → 1 ≤ k ∧ k ≤ x.length := by
  intro x k h
  by_cases hp : ['-','f','o','o','t'].isPrefixOf x
  · have hlen := (List.isPrefixOf_iff_prefix.mp hp).length_le
    simp [chkDashFoot, hp] at h
    simp at hlen
    omega
  · simp [chkDashFoot, hp] at h

theorem bnd_chkInB : ∀ x k, chkInB x = some k → 1 ≤ k ∧ k ≤ x.length := by
  intro x k h
  by_cases hp : ['i','n'].isPrefixOf x ∧ wbAfter (x.drop 2)
  · have hlen := (List.isPrefixOf_iff_prefix.mp hp.1).length_le
    rw [chkInB, if_pos hp] at h
    have hk : k = 2 := by injection h; omega
    simp at hlen
    omega
  · rw [chkInB, if_neg hp] at h
    exact absurd h (by simp)

theorem bnd_chkFtB : ∀ x k, chkFtB x = some k → 1 ≤ k ∧ k ≤ x.length := by
  intro x k h
  by_cases hp : ['f','t'].isPrefixOf x ∧ wbAfter (x.drop 2)
  · have hlen := (List.isPrefixOf_iff_prefix.mp hp.1).length_le
    rw [chkFtB, if_pos hp] at h
    have hk : k = 2 := by injection h; omega
    simp at hlen
    omega
  · rw [chkFtB, if_neg hp] at h
    exact absurd h (by simp)

theorem bnd_chkWsFt : ∀ x k, chkWsFt x = some k → 1 ≤ k ∧ k ≤ x.length := by
  intro x k h
  by_cases hp : ['f','t'].isPrefixOf (x.drop (x.takeWhile isWsC).length) ∧
      wbAfter (x.drop ((x.takeWhile isWsC).length + 2))
  · have hk : k = (x.takeWhile isWsC).length + 2 := by
      rw [chkWsFt] at h
      simp only [if_pos hp] at h
      injection h
      omega
    have hd : x.drop (x.takeWhile isWsC).length = x.dropWhile isWsC :=
      drop_takeWhile_len _ _
    have hlen := (List.isPrefixOf_iff_prefix.mp hp.1).length_le
    rw [hd] at hlen
    have hdl : (x.dropWhile isWsC).length = x.length - (x.takeWhile isWsC).length := by
      rw [← hd, List.length_drop]
    have htw : (x.takeWhile isWsC).length ≤ x.length :=
      (List.takeWhile_sublist _).length_le
    simp at hlen
    omega
  · rw [chkWsFt] at h
    simp only [if_neg hp] at h
    exact absurd h (by simp)

theorem rep_heads : (∃ r rs, repInch = r :: rs ∧ isDigitC r = false) ∧
    (∃ r rs, repFoot = r :: rs ∧ isDigitC r = false) :=
  ⟨⟨' ', ['i','n','c','h'], rfl, by decide⟩, ⟨' ', ['f','o','o','t'], rfl, by decide⟩⟩

theorem repInch_nodigit : ∀ c ∈ repInch, isDigitC c = false := by decide
theorem repFoot_nodigit : ∀ c ∈ repFoot, isDigitC c = false := by decide

theorem repnone_quote_inch : ∀ z, chkQuote (repInch ++ z) = none := fun _ => rfl
theorem repnone_quote_foot : ∀ z, chkQuote (repFoot ++ z) = none := fun _ => rfl
theorem repnone_dashinch_inch : ∀ z, chkDashInch (repInch ++ z) = none := fun _ => rfl
theorem repnone_dashinch_foot : ∀ z, chkDashInch (repFoot ++ z) = none := fun _ => rfl
theorem repnone_inb_inch : ∀ z, chkInB (repInch ++ z) = none := by
  intro z
  rw [chkInB, if_neg]
  rintro ⟨hp, -⟩
  simp [repInch, List.isPrefixOf] at hp
theorem repnone_inb_foot : ∀ z, chkInB (repFoot ++ z) = none := by
  intro z
  rw [chkInB, if_neg]
  rintro ⟨hp, -⟩
  simp [repFoot, List.isPrefixOf] at hp
theorem repnone_dashfoot_inch : ∀ z, chkDashFoot (repInch ++ z) = none := fun _ => rfl
theorem repnone_dashfoot_foot : ∀ z, chkDashFoot (repFoot ++ z) = none := fun _ => rfl
theorem repnone_ftb_inch : ∀ z, chkFtB (repInch ++ z) = none := by
  intro z
  rw [chkFtB, if_neg]
  rintro ⟨hp, -⟩
  simp [repInch, List.isPrefixOf] at hp
theorem repnone_ftb_foot : ∀ z, chkFtB (repFoot ++ z) = none := by
  intro z
  rw [chkFtB, if_neg]
  rintro ⟨hp, -⟩
  simp [repFoot, List.isPrefixOf] at hp
theorem repnone_wsft_inch : ∀ z, chkWsFt (repInch ++ z) = none := by
  intro z
  rw [chkWsFt_none_iff]
  rintro ⟨hp, -⟩
  have : (repInch ++ z).dropWhile isWsC = 'i' :: ('n' :: ('c' :: ('h' :: z))) := by
    simp [repInch, List.cons_append, List.dropWhile_cons,
      show isWsC ' ' = true from by decide, show isWsC 'i' = false from by decide]
  rw [this] at hp
  simp [List.isPrefixOf] at hp
theorem repnone_wsft_foot : ∀ z, chkWsFt (repFoot ++ z) = none := by
  intro z
  rw [chkWsFt_none_iff]
  rintro ⟨hp, -⟩
  have : (repFoot ++ z).dropWhile isWsC = 'f' :: ('o' :: ('o' :: ('t' :: z))) := by
    simp [repFoot, List.cons_append, List.dropWhile_cons,
      show isWsC ' ' = true from by decide, show isWsC 'f' = false from by decide]
  rw [this] at hp
  simp [List.isPrefixOf] at hp

theorem nil_chkQuote : chkQuote [] = none := rfl
theorem nil_chkDashInch : chkDashInch [] = none := by decide
theorem nil_chkInB : chkInB [] = none := by decide
theorem nil_chkDashFoot : chkDashFoot [] = none := by decide
theorem nil_chkFtB : chkFtB [] = none := by decide
theorem nil_chkWsFt : chkWsFt [] = none := by decide

theorem ext_chkQuote : ∀ x w, (∀ c ∈ w, isWsC c = true) →
    chkQuote (x ++ w) = none → chkQuote x = none := by
  intro x w hw h
  cases x with
  | nil => rfl
  | cons c t =>
    by_cases hq : c = '"' ∨ c = '”' ∨ c = '“'
    · rw [List.cons_append] at h
      simp [chkQuote, hq] at h
    · simp [chkQuote, hq]

theorem ext_chkDashInch : ∀ x w, (∀ c ∈ w, isWsC c = true) →
    chkDashInch (x ++ w) = none → chkDashInch x = none := by
  intro x w hw h
  by_cases hp : ['-','i','n','c','h'].isPrefixOf x
  · exfalso
    have hpre : ['-','i','n','c','h'].isPrefixOf (x ++ w) :=
      List.isPrefixOf_iff_prefix.mpr
        ((List.isPrefixOf_iff_prefix.mp hp).trans (List.prefix_append x w))
    simp [chkDashInch, hpre] at h
  · simp [chkDashInch, hp]

theorem ext_chkDashFoot : ∀ x w, (∀ c ∈ w, isWsC c = true) →
    chkDashFoot (x ++ w) = none → chkDashFoot x = none := by
  intro x w hw h
  by_cases hp : ['-','f','o','o','t'].isPrefixOf x
  · exfalso
    have hpre : ['-','f','o','o','t'].isPrefixOf (x ++ w) :=
      List.isPrefixOf_iff_prefix.mpr
        ((List.isPrefixOf_iff_prefix.mp hp).trans (List.prefix_append x w))
    simp [chkDashFoot, hpre] at h
  · simp [chkDashFoot, hp]

theorem ext_chkInB : ∀ x w, (∀ c ∈ w, isWsC c = true) →
    chkInB (x ++ w) = none → chkInB x = none := by
  intro x w hw h
  by_cases hp : ['i','n'].isPrefixOf x ∧ wbAfter (x.drop 2)
  · exfalso
    obtain ⟨hp1, hp2⟩ := hp
    obtain ⟨t, ht⟩ := List.isPrefixOf_iff_prefix.mp hp1
    have hpre : ['i','n'].isPrefixOf (x ++ w) :=
      List.isPrefixOf_iff_prefix.mpr ((List.isPrefixOf_iff_prefix.mp hp1).trans
        (List.prefix_append x w))
    have hdrop : (x ++ w).drop 2 = x.drop 2 ++ w := by
      rw [← ht]
      rfl
    have hwb : wbAfter ((x ++ w).drop 2) = true := by
      rw [hdrop]
      exact wbAfter_append_ws hw _ hp2
    rw [chkInB, if_pos ⟨hpre, hwb⟩] at h
    exact Option.some_ne_none _ h
  · rw [chkInB, if_neg hp]

theorem ext_chkFtB : ∀ x w, (∀ c ∈ w, isWsC c = true) →
    chkFtB (x ++ w) = none → chkFtB x = none := by
  intro x w hw h
  by_cases hp : ['f','t'].isPrefixOf x ∧ wbAfter (x.drop 2)
  · exfalso
    obtain ⟨hp1, hp2⟩ := hp
    obtain ⟨t, ht⟩ := List.isPrefixOf_iff_prefix.mp hp1
    have hpre : ['f','t'].isPrefixOf (x ++ w) :=
      List.isPrefixOf_iff_prefix.mpr ((List.isPrefixOf_iff_prefix.mp hp1).trans
        (List.prefix_append x w))
    have hdrop : (x ++ w).drop 2 = x.drop 2 ++ w := by
      rw [← ht]
      rfl
    have hwb : wbAfter ((x ++ w).drop 2) = true := by
      rw [hdrop]
      exact wbAfter_append_ws hw _ hp2
    rw [chkFtB, if_pos ⟨hpre, hwb⟩] at h
    exact Option.some_ne_none _ h
  · rw [chkFtB, if_neg hp]

theorem ext_chkWsFt : ∀ x w, (∀ c ∈ w, isWsC c = true) →
    chkWsFt (x ++ w) = none → chkWsFt x = none := by
  intro x w hw h
  rw [chkWsFt_none_iff] at h ⊢
  rintro ⟨hp1, hp2⟩
  apply h
  have hxne : x.dropWhile isWsC ≠ [] := by
    intro hnil
    rw [hnil] at hp1
    simp [List.isPrefixOf] at hp1
  have hdw : (x ++ w).dropWhile isWsC = x.dropWhile isWsC ++ w :=
    dropWhile_append_ne hxne w
  obtain ⟨t, ht⟩ := List.isPrefixOf_iff_prefix.mp hp1
  constructor
  · rw [hdw]
    exact List.isPrefixOf_iff_prefix.mpr ((List.isPrefixOf_iff_prefix.mp hp1).trans
      (List.prefix_append _ _))
  · rw [hdw, ← ht]
    have h1 : ((['f','t'] ++ t) ++ w).drop 2 = t ++ w := rfl
    have h2 : (['f','t'] ++ t : List Char).drop 2 = t := rfl
    rw [h1]
    apply wbAfter_append_ws hw
    rw [← ht, h2] at hp2
    exact hp2


/-! ### C9: idempotence of `normalize_text` -/

theorem normChars_of_fixed {u : List Char} (h : NormFixed u) : normChars u = u := by
  obtain ⟨hlow, hstrip, hwsp, h1, h2, h3, h4, h5, h6⟩ := h
  show stripWs (collapseWs (scanSub chkWsFt repFoot (scanSub chkFtB repFoot
    (scanSub chkDashFoot repFoot (scanSub chkInB repInch (scanSub chkDashInch repInch
    (scanSub chkQuote repInch (stripWs (u.map lowerC))))))))) = u
  rw [map_lowerC_id hlow, hstrip]
  rw [scanSub_eq_self repInch u h1, scanSub_eq_self repInch u h2,
    scanSub_eq_self repInch u h3, scanSub_eq_self repFoot u h4,
    scanSub_eq_self repFoot u h5, scanSub_eq_self repFoot u h6]
  rw [show collapseWs u = u from collapseGo_eq_self u hwsp, hstrip]

theorem normChars_fixed (l : List Char) : NormFixed (normChars l) := by
  set t0 := stripWs (l.map lowerC) with ht0
  set t1 := scanSub chkQuote repInch t0 with ht1
  set t2 := scanSub chkDashInch repInch t1 with ht2
  set t3 := scanSub chkInB repInch t2 with ht3
  set t4 := scanSub chkDashFoot repFoot t3 with ht4
  set t5 := scanSub chkFtB repFoot t4 with ht5
  set t6 := scanSub chkWsFt repFoot t5 with ht6
  set tc := collapseWs t6 with htc
  set u := stripWs tc with htu
  have hnorm : normChars l = u := rfl
  rw [hnorm]
  have r1 : Rew chkQuote repInch t0 t1 := scanSub_rew_self bnd_chkQuote t0
  have r2 : Rew chkDashInch repInch t1 t2 := scanSub_rew_self bnd_chkDashInch t1
  have r3 : Rew chkInB repInch t2 t3 := scanSub_rew_self bnd_chkInB t2
  have r4 : Rew chkDashFoot repFoot t3 t4 := scanSub_rew_self bnd_chkDashFoot t3
  have r5 : Rew chkFtB repFoot t4 t5 := scanSub_rew_self bnd_chkFtB t4
  have r6 : Rew chkWsFt repFoot t5 t6 := scanSub_rew_self bnd_chkWsFt t5
  have rc : CRew t6 tc := collapse_crew t6
  have n1a : NoMat chkQuote t1 := rew_NoMat_self
    (fun hr h => stab_chkQuote (syncOK_rew _ _) hr h) repnone_quote_inch
    rep_heads.1 repInch_nodigit r1
  have n1b : NoMat chkQuote t2 := rew_NoMat_other
    (fun hr h => stab_chkQuote (syncOK_rew _ _) hr h) repnone_quote_inch
    rep_heads.1 repInch_nodigit r2 n1a
  have n1c : NoMat chkQuote t3 := rew_NoMat_other
    (fun hr h => stab_chkQuote (syncOK_rew _ _) hr h) repnone_quote_inch
    rep_heads.1 repInch_nodigit r3 n1b
  have n1d : NoMat chkQuote t4 := rew_NoMat_other
    (fun hr h => stab_chkQuote (syncOK_rew _ _) hr h) repnone_quote_foot
    rep_heads.2 repFoot_nodigit r4 n1c
  have n1e : NoMat chkQuote t5 := rew_NoMat_other
    (fun hr h => stab_chkQuote (syncOK_rew _ _) hr h) repnone_quote_foot
    rep_heads.2 repFoot_nodigit r5 n1d
  have n1f : NoMat chkQuote t6 := rew_NoMat_other
    (fun hr h => stab_chkQuote (syncOK_rew _ _) hr h) repnone_quote_foot
    rep_heads.2 repFoot_nodigit r6 n1e
  have n1g : NoMat chkQuote tc := crew_NoMat
    (fun hr h => stab_chkQuote syncOK_crew hr h) rc n1f
  have n1u : NoMat chkQuote u := NoMat_strip nil_chkQuote ext_chkQuote n1g
  have n2a : NoMat chkDashInch t2 := rew_NoMat_self
    (fun hr h => stab_chkDashInch (syncOK_rew _ _) hr h) repnone_dashinch_inch
    rep_heads.1 repInch_nodigit r2
  have n2b : NoMat chkDashInch t3 := rew_NoMat_other
    (fun hr h => stab_chkDashInch (syncOK_rew _ _) hr h) repnone_dashinch_inch
    rep_heads.1 repInch_nodigit r3 n2a
  have n2c : NoMat chkDashInch t4 := rew_NoMat_other
    (fun hr h => stab_chkDashInch (syncOK_rew _ _) hr h) repnone_dashinch_foot
    rep_heads.2 repFoot_nodigit r4 n2b
  have n2d : NoMat chkDashInch t5 := rew_NoMat_other
    (fun hr h => stab_chkDashInch (syncOK_rew _ _) hr h) repnone_dashinch_foot
    rep_heads.2 repFoot_nodigit r5 n2c
  have n2e : NoMat chkDashInch t6 := rew_NoMat_other
    (fun hr h => stab_chkDashInch (syncOK_rew _ _) hr h) repnone_dashinch_foot
    rep_heads.2 repFoot_nodigit r6 n2d
  have n2g : NoMat chkDashInch tc := crew_NoMat
    (fun hr h => stab_chkDashInch syncOK_crew hr h) rc n2e
  have n2u : NoMat chkDashInch u := NoMat_strip nil_chkDashInch ext_chkDashInch n2g
  have n3a : NoMat chkInB t3 := rew_NoMat_self
    (fun hr h => stab_chkInB (syncOK_rew _ _) hr h) repnone_inb_inch
    rep_heads.1 repInch_nodigit r3
  have n3b : NoMat chkInB t4 := rew_NoMat_other
    (fun hr h => stab_chkInB (syncOK_rew _ _) hr h) repnone_inb_foot
    rep_heads.2 repFoot_nodigit r4 n3a
  have n3c : NoMat chkInB t5 := rew_NoMat_other
    (fun hr h => stab_chkInB (syncOK_rew _ _) hr h) repnone_inb_foot
    rep_heads.2 repFoot_nodigit r5 n3b
  have n3d : NoMat chkInB t6 := rew_NoMat_other
    (fun hr h => stab_chkInB (syncOK_rew _ _) hr h) repnone_inb_foot
    rep_heads.2 repFoot_nodigit r6 n3c
  have n3g : NoMat chkInB tc := crew_NoMat
    (fun hr h => stab_chkInB syncOK_crew hr h) rc n3d
  have n3u : NoMat chkInB u := NoMat_strip nil_chkInB ext_chkInB n3g
  have n4a : NoMat chkDashFoot t4 := rew_NoMat_self
    (fun hr h => stab_chkDashFoot (syncOK_rew _ _) hr h) repnone_dashfoot_foot
    rep_heads.2 repFoot_nodigit r4
  have n4b : NoMat chkDashFoot t5 := rew_NoMat_other
    (fun hr h => stab_chkDashFoot (syncOK_rew _ _) hr h) repnone_dashfoot_foot
    rep_heads.2 repFoot_nodigit r5 n4a
  have n4c : NoMat chkDashFoot t6 := rew_NoMat_other
    (fun hr h => stab_chkDashFoot (syncOK_rew _ _) hr h) repnone_dashfoot_foot
    rep_heads.2 repFoot_nodigit r6 n4b
  have n4g : NoMat chkDashFoot tc := crew_NoMat
    (fun hr h => stab_chkDashFoot syncOK_crew hr h) rc n4c
  have n4u : NoMat chkDashFoot u := NoMat_strip nil_chkDashFoot ext_chkDashFoot n4g
  have n5a : NoMat chkFtB t5 := rew_NoMat_self
    (fun hr h => stab_chkFtB (syncOK_rew _ _) hr h) repnone_ftb_foot
    rep_heads.2 repFoot_nodigit r5
  have n5b : NoMat chkFtB t6 := rew_NoMat_other
    (fun hr h => stab_chkFtB (syncOK_rew _ _) hr h) repnone_ftb_foot
    rep_heads.2 repFoot_nodigit r6 n5a
  have n5g : NoMat chkFtB tc := crew_NoMat
    (fun hr h => stab_chkFtB syncOK_crew hr h) rc n5b
  have n5u : NoMat chkFtB u := NoMat_strip nil_chkFtB ext_chkFtB n5g
  have n6a : NoMat chkWsFt t6 := rew_NoMat_self
    (fun hr h => stab_chkWsFt (syncOK_rew _ _) hr h) repnone_wsft_foot
    rep_heads.2 repFoot_nodigit r6
  have n6g : NoMat chkWsFt tc := crew_NoMat
    (fun hr h => stab_chkWsFt syncOK_crew hr h) rc n6a
  have n6u : NoMat chkWsFt u := NoMat_strip nil_chkWsFt ext_chkWsFt n6g
  have L0 : ∀ c ∈ t0, lowerC c = c := by
    intro c hc
    have hc' : c ∈ l.map lowerC := mem_strip hc
    obtain ⟨a, -, rfl⟩ := List.mem_map.mp hc'
    exact lowerC_idem a
  have LrepI : ∀ c ∈ repInch, lowerC c = c := by decide
  have LrepF : ∀ c ∈ repFoot, lowerC c = c := by decide
  have L1 : ∀ c ∈ t1, lowerC c = c := fun c hc =>
    (rew_mem r1 c hc).elim (L0 c) (LrepI c)
  have L2 : ∀ c ∈ t2, lowerC c = c := fun c hc =>
    (rew_mem r2 c hc).elim (L1 c) (LrepI c)
  have L3 : ∀ c ∈ t3, lowerC c = c := fun c hc =>
    (rew_mem r3 c hc).elim (L2 c) (LrepI c)
  have L4 : ∀ c ∈ t4, lowerC c = c := fun c hc =>
    (rew_mem r4 c hc).elim (L3 c) (LrepF c)
  have L5 : ∀ c ∈ t5, lowerC c = c := fun c hc =>
    (rew_mem r5 c hc).elim (L4 c) (LrepF c)
  have L6 : ∀ c ∈ t6, lowerC c = c := fun c hc =>
    (rew_mem r6 c hc).elim (L5 c) (LrepF c)
  have Lc : ∀ c ∈ tc, lowerC c = c := by
    intro c hc
    rcases crew_mem rc c hc with h | rfl
    · exact L6 c h
    · decide
  have Lu : ∀ c ∈ u, lowerC c = c := fun c hc => Lc c (mem_strip hc)
  have Wc : WSP tc := WSP_collapseGo t6 false
  have Wu : WSP u := WSP_strip Wc
  have Su : stripWs u = u := strip_idem tc
  exact ⟨Lu, Su, Wu, n1u, n2u, n3u, n4u, n5u, n6u⟩

theorem normChars_idem (l : List Char) : normChars (normChars l) = normChars l :=
  normChars_of_fixed (normChars_fixed l)

/-- C9: text normalization is idempotent — for every input string `s`,
`normalize_text (normalize_text s) = normalize_text s`. -/
theorem normalize_text_idem (s : String) :
    normalize_text (normalize_text s) = normalize_text s := by
  show (⟨normChars (normChars s.data)⟩ : String) = ⟨normChars s.data⟩
  rw [normChars_idem]

end RentalAI
